import Mathlib

/-!
Verification of the NodeToCode MCP stdio-to-HTTP bridge
(`Content/Python/mcp_bridge/nodetocode_bridge.py`).

The development embeds the bridge as pure Lean functions:

* a model of the Python `json` module (`loads` / `dumps`) over an inductive
  `Json` value type, working on `List Char`.  Numbers are modelled as exact
  integers (the bridge never relies on floats), `dumps` is modelled with
  `ensure_ascii=False`-style escaping of the characters the encoder always
  escapes (quote, backslash, controls), and a lone `\uXXXX` escape decodes to
  the single code point (surrogate-pair joining is out of scope).  Everything
  else — whitespace handling, the leading-zero rule, strict rejection of raw
  control characters inside strings, last-occurrence-wins dictionary lookup —
  follows the CPython `json` package, which the bridge calls.
* the bridge's own functions (`find_ue5_server`, `forward_request`,
  `handle_sse_response`, `parse_sse_event`, `write_response`, `write_error`,
  and the `main` loop) translated line by line, with the network modelled as
  explicit oracle values (a health-probe predicate, an HTTP outcome, an SSE
  chunk stream) and with stdout modelled as returned lists of lines.
-/

/-! ## Character helpers -/

/-- JSON inter-token whitespace, as accepted by `json.decoder` (` \t\n\r`). -/
def isJsonWs (c : Char) : Bool :=
  c = ' ' || c = '\t' || c = '\n' || c = '\r'

/-- Python `str` whitespace (the ASCII part), as stripped by `str.strip()`. -/
def pyIsSpace (c : Char) : Bool :=
  c = ' ' || c = '\t' || c = '\n' || c = '\r' || c = Char.ofNat 11 || c = Char.ofNat 12

/-- Drop leading JSON whitespace. -/
def skipWs : List Char → List Char
  | [] => []
  | c :: t => if isJsonWs c then skipWs t else c :: t

/-- Python `str.strip()` on a character list. -/
def pyStrip (l : List Char) : List Char :=
  ((l.dropWhile pyIsSpace).reverse.dropWhile pyIsSpace).reverse

/-- Python `str.strip()` on a `String`. -/
def pyStripS (s : String) : String := ⟨pyStrip s.data⟩

/-- Decimal digit character (`0 ≤ n ≤ 9` in the uses below). -/
def digitCh (n : Nat) : Char := Char.ofNat (48 + n)

/-- Lower-case hexadecimal digit character, as produced by `'\u%04x'`. -/
def hexCh (n : Nat) : Char :=
  if n < 10 then Char.ofNat (48 + n) else Char.ofNat (87 + n)

/-- Numeric value of a hexadecimal digit character, if it is one. -/
def hexVal? (c : Char) : Option Nat :=
  if '0' ≤ c && c ≤ '9' then some (c.toNat - 48)
  else if 'a' ≤ c && c ≤ 'f' then some (c.toNat - 87)
  else if 'A' ≤ c && c ≤ 'F' then some (c.toNat - 55)
  else none

/-- Numeric value of a decimal digit character. -/
def digitVal (c : Char) : Nat := c.toNat - 48

/-! ## JSON values -/

/-- A JSON value as handled by the Python `json` module in the bridge: `dict`s
are association lists in insertion order, numbers are exact integers. -/
inductive Json where
  | null
  | bool (b : Bool)
  | num (n : Int)
  | str (s : String)
  | arr (xs : List Json)
  | obj (kvs : List (String × Json))

/-! ## The serializer (`json.dumps`)

`pad = false` models `separators=(',', ':')` (the compact form used by
`write_response` and `write_error`); `pad = true` models the default
separators `(', ', ': ')` (used for the synthesized transport errors and the
id backfill in `main`). -/

/-- The space the default separators put after `,` and `:` (none if compact). -/
def padCh (pad : Bool) : List Char := if pad then [' '] else []

/-- JSON escape of one character, per `json.encoder`: quote, backslash and the
named controls get two-character escapes, other controls get `\u00xx`. -/
def escChar (c : Char) : List Char :=
  if c = '"' then ['\\', '"']
  else if c = '\\' then ['\\', '\\']
  else if c = Char.ofNat 8 then ['\\', 'b']
  else if c = Char.ofNat 12 then ['\\', 'f']
  else if c = '\n' then ['\\', 'n']
  else if c = '\r' then ['\\', 'r']
  else if c = '\t' then ['\\', 't']
  else if c.toNat < 32 then ['\\', 'u', '0', '0', hexCh (c.toNat / 16), hexCh (c.toNat % 16)]
  else [c]

/-- Escape every character of a string body. -/
def escapeAll : List Char → List Char
  | [] => []
  | c :: t => escChar c ++ escapeAll t

/-- A serialized JSON string: quote, escaped body, quote. -/
def serStr (s : String) : List Char :=
  '"' :: (escapeAll s.data ++ ['"'])

/-- Decimal digits of `n`, most significant first (fuel-structural so that the
kernel can evaluate it; any `fuel ≥ n` suffices, and `serNat` passes `n + 1`). -/
def serNatAux : Nat → Nat → List Char
  | 0, _ => []
  | f + 1, n => if n = 0 then [] else serNatAux f (n / 10) ++ [digitCh (n % 10)]

/-- Decimal representation of a natural number. -/
def serNat (n : Nat) : List Char := if n = 0 then ['0'] else serNatAux (n + 1) n

/-- Decimal representation of an integer, as Python prints `int`. -/
def serInt (i : Int) : List Char :=
  if i < 0 then '-' :: serNat i.natAbs else serNat i.toNat

mutual

/-- `json.dumps` on a value, producing a character list. -/
def serJson (pad : Bool) : Json → List Char
  | .null => ['n', 'u', 'l', 'l']
  | .bool b => if b then ['t', 'r', 'u', 'e'] else ['f', 'a', 'l', 's', 'e']
  | .num n => serInt n
  | .str s => serStr s
  | .arr xs => '[' :: serArrItems pad xs
  | .obj kvs => '{' :: serObjItems pad kvs

/-- The items of an array, separated by `,`(+pad), closed by `]`. -/
def serArrItems (pad : Bool) : List Json → List Char
  | [] => [']']
  | [x] => serJson pad x ++ [']']
  | x :: y :: t => serJson pad x ++ ',' :: (padCh pad ++ serArrItems pad (y :: t))

/-- The members of an object: `"key":`(+pad)`value`, comma-separated, closed
by `}`. -/
def serObjItems (pad : Bool) : List (String × Json) → List Char
  | [] => ['}']
  | [(k, v)] => serStr k ++ ':' :: (padCh pad ++ (serJson pad v ++ ['}']))
  | (k, v) :: m :: t =>
    serStr k ++ ':' :: (padCh pad ++ (serJson pad v ++ ',' :: (padCh pad ++ serObjItems pad (m :: t))))

end

/-- `json.dumps(j, separators=...)` as a `String`; `pad` selects the separators
(`false` = `(',', ':')`, `true` = the default `(', ', ': ')`). -/
def dumps (pad : Bool) (j : Json) : String := ⟨serJson pad j⟩

/-! ## The parser (`json.loads`) -/

/-- Prepend a decoded character to a string-body parse result. -/
def consStr (c : Char) : Option (List Char × List Char) → Option (List Char × List Char)
  | some (cs, r) => some (c :: cs, r)
  | none => none

/-- The decoded character for a single-character escape, if the escape is one
of the eight named ones (`json.decoder.BACKSLASH`). -/
def escCode (e : Char) : Option Char :=
  if e = '"' then some '"'
  else if e = '\\' then some '\\'
  else if e = '/' then some '/'
  else if e = 'b' then some (Char.ofNat 8)
  else if e = 'f' then some (Char.ofNat 12)
  else if e = 'n' then some '\n'
  else if e = 'r' then some '\r'
  else if e = 't' then some '\t'
  else none

/-- Four hexadecimal digits after `\u`, decoded to a character. -/
def parseHex4 : List Char → Option (Char × List Char)
  | h1 :: h2 :: h3 :: h4 :: t =>
    (match hexVal? h1, hexVal? h2, hexVal? h3, hexVal? h4 with
     | some a, some b, some c, some d =>
       some (Char.ofNat (((a * 16 + b) * 16 + c) * 16 + d), t)
     | _, _, _, _ => none)
  | _ => none

/-- One escape sequence after the backslash: the decoded character and the
rest of the input. -/
def escStep : List Char → Option (Char × List Char)
  | [] => none
  | e :: t =>
    match escCode e with
    | some ch => some (ch, t)
    | none => if e = 'u' then parseHex4 t else none

/-- Parse the body of a JSON string after the opening quote, per
`json.scanner.py_scanstring` in strict mode: raw control characters are
rejected, the eight named escapes and `\uXXXX` are decoded.  Fuel-structural;
one unit of fuel per decoded character always suffices. -/
def parseStrBody : Nat → List Char → Option (List Char × List Char)
  | 0, _ => none
  | _ + 1, [] => none
  | f + 1, c :: r =>
    if c = '"' then some ([], r)
    else if c = '\\' then
      match escStep r with
      | some (ch, t) => consStr ch (parseStrBody f t)
      | none => none
    else if c.toNat < 32 then none
    else consStr c (parseStrBody f r)

/-- Expect three given literal characters, returning the rest. -/
def lit3 (a b c : Char) : List Char → Option (List Char)
  | c1 :: c2 :: c3 :: r => if c1 = a ∧ c2 = b ∧ c3 = c then some r else none
  | _ => none

/-- Expect four given literal characters, returning the rest. -/
def lit4 (a b c d : Char) : List Char → Option (List Char)
  | c1 :: c2 :: c3 :: c4 :: r => if c1 = a ∧ c2 = b ∧ c3 = c ∧ c4 = d then some r else none
  | _ => none

/-- Accumulate a maximal run of decimal digits (the `\d*` part of the number
regex), starting from an already-read value. -/
def takeDigitsAcc (acc : Nat) : List Char → Nat × List Char
  | [] => (acc, [])
  | c :: t => if c.isDigit then takeDigitsAcc (acc * 10 + digitVal c) t else (acc, c :: t)

/-- The integer part of a JSON number after any sign: `0 | [1-9][0-9]*`, as in
the `json` number regex (so a leading `0` is never followed by more digits). -/
def parseIntPart : List Char → Option (Nat × List Char)
  | [] => none
  | c :: r =>
    if c = '0' then some (0, r)
    else if c.isDigit then some (takeDigitsAcc (digitVal c) r)
    else none

mutual

/-- Parse one JSON value (fuel-structural; `loads` passes `length + 1`).
Mirrors `json.scanner.py_make_scanner`: skip whitespace, then an if-chain on
the next character, exactly as the Python scanner dispatches. -/
def parseValue : Nat → List Char → Option (Json × List Char)
  | 0, _ => none
  | f + 1, s =>
    match skipWs s with
    | [] => none
    | c :: r =>
      if c = '"' then
        match parseStrBody f r with
        | some (cs, r2) => some (.str ⟨cs⟩, r2)
        | none => none
      else if c = '{' then
        match skipWs r with
        | [] => none
        | c2 :: r2 =>
          if c2 = '}' then some (.obj [], r2)
          else
            match parseObjItems f (c2 :: r2) with
            | some (kvs, r3) => some (.obj kvs, r3)
            | none => none
      else if c = '[' then
        match skipWs r with
        | [] => none
        | c2 :: r2 =>
          if c2 = ']' then some (.arr [], r2)
          else
            match parseArrItems f (c2 :: r2) with
            | some (xs, r3) => some (.arr xs, r3)
            | none => none
      else if c = 'n' then
        match lit3 'u' 'l' 'l' r with
        | some r2 => some (.null, r2)
        | none => none
      else if c = 't' then
        match lit3 'r' 'u' 'e' r with
        | some r2 => some (.bool true, r2)
        | none => none
      else if c = 'f' then
        match lit4 'a' 'l' 's' 'e' r with
        | some r2 => some (.bool false, r2)
        | none => none
      else if c = '-' then
        match parseIntPart r with
        | some (n, r2) => some (.num (-(n : Int)), r2)
        | none => none
      else if c.isDigit then
        match parseIntPart (c :: r) with
        | some (n, r2) => some (.num (n : Int), r2)
        | none => none
      else none

/-- One or more comma-separated array items, up to the closing `]`. -/
def parseArrItems : Nat → List Char → Option (List Json × List Char)
  | 0, _ => none
  | f + 1, s =>
    match parseValue f s with
    | none => none
    | some (v, r) =>
      match skipWs r with
      | [] => none
      | c :: r2 =>
        if c = ',' then
          match parseArrItems f r2 with
          | some (vs, r3) => some (v :: vs, r3)
          | none => none
        else if c = ']' then some ([v], r2)
        else none

/-- One or more `"key" : value` object members, up to the closing `}`. -/
def parseObjItems : Nat → List Char → Option (List (String × Json) × List Char)
  | 0, _ => none
  | f + 1, s =>
    match skipWs s with
    | [] => none
    | c :: r =>
      if c = '"' then
        match parseStrBody f r with
        | none => none
        | some (k, r1) =>
          match skipWs r1 with
          | [] => none
          | c2 :: r2 =>
            if c2 = ':' then
              match parseValue f r2 with
              | none => none
              | some (v, r3) =>
                match skipWs r3 with
                | [] => none
                | c3 :: r4 =>
                  if c3 = ',' then
                    match parseObjItems f r4 with
                    | some (kvs, r5) => some ((⟨k⟩, v) :: kvs, r5)
                    | none => none
                  else if c3 = '}' then some ([(⟨k⟩, v)], r4)
                  else none
            else none
      else none

end

/-- `json.loads` on a character list: one value, then only whitespace
("Extra data" otherwise). -/
def loadsL (l : List Char) : Option Json :=
  match parseValue (l.length + 1) l with
  | some (j, r) => if skipWs r = [] then some j else none
  | none => none

/-- `json.loads` on a `String`. -/
def loads (s : String) : Option Json := loadsL s.data

/-! ## Python `dict` access

`json.loads` builds Python `dict`s; with duplicate keys in the source text the
last value wins.  The bridge only ever calls `.get` and compares the result
with `None`, or tests its truthiness — and a stored JSON `null` comes back as
`None` exactly like an absent key — so `pyGet` collapses `null` to `none`. -/

/-- Last-occurrence-wins lookup in an association list (Python `dict` built
from parsed pairs). -/
def lookupLast (kvs : List (String × Json)) (k : String) : Option Json :=
  match kvs with
  | [] => none
  | (k', v) :: t =>
    match lookupLast t k with
    | some r => some r
    | none => if k' = k then some v else none

/-- Python `d.get(k)` combined with the caller's `is None` test: an absent key
and a stored `null` are both `none`. -/
def pyGet (kvs : List (String × Json)) (k : String) : Option Json :=
  match lookupLast kvs k with
  | some .null => none
  | r => r

/-- Python `d[k] = v`: replace the value if the key is present, else append. -/
def setKey (kvs : List (String × Json)) (k : String) (v : Json) : List (String × Json) :=
  if kvs.any (fun p => p.1 = k) then kvs.map (fun p => if p.1 = k then (k, v) else p)
  else kvs ++ [(k, v)]

/-- Python truthiness of a decoded JSON value (`if not sse_url:`). -/
def jsonTruthy : Json → Bool
  | .null => false
  | .bool b => b
  | .num n => n != 0
  | .str s => s != ""
  | .arr xs => !xs.isEmpty
  | .obj kvs => !kvs.isEmpty

/-! ## Output formatting (`write_response`, `write_error`) -/

/-- The newline scrub of `write_response`'s fallback branch:
`response.replace('\n', ' ').replace('\r', '')` (the replacement introduces no
`'\r'`, so mapping then filtering performs the two passes). -/
def stripNewlines (s : String) : String :=
  ⟨(s.data.map (fun c => if c = '\n' then ' ' else c)).filter (fun c => c ≠ '\r')⟩

/-- `write_response` (nodetocode_bridge.py lines 207-219): the single stdout
line it prints — re-serialized compact if the body parses as JSON, otherwise
the body with newlines scrubbed. -/
def write_response (response : String) : String :=
  match loads response with
  | some j => dumps false j
  | none => stripNewlines response

/-- The error payload dict literal used by `write_error` and by
`forward_request`'s synthesized transport errors, in insertion order. -/
def errorBody (id_ : Json) (code : Int) (message : String) : Json :=
  .obj [("jsonrpc", .str "2.0"), ("id", id_), ("error", .obj [("code", .num code), ("message", .str message)])]

/-- `write_error` (lines 222-231): the single compact stdout line it prints. -/
def write_error_line (id_ : Json) (code : Int) (message : String) : String :=
  dumps false (errorBody id_ code message)

/-! ## SSE stream handling

The network is an oracle: the stream is the list of text chunks the `read`
loop receives before the connection stops yielding data.  A read that dies
with an exception is the same oracle value truncated at the failure — the
`except` arm (line 188-190) and the no-terminal fall-through (line 186) return
the identical pair, so the model needs no separate error flag. -/

/-- `event_str.split('\n')` — split at every newline, keeping empty pieces. -/
def splitOnNl : List Char → List (List Char)
  | [] => [[]]
  | c :: t =>
    if c = '\n' then [] :: splitOnNl t
    else
      match splitOnNl t with
      | l :: ls => (c :: l) :: ls
      | [] => [[c]]

/-- One step of `parse_sse_event`'s line loop (lines 198-202). -/
def sseFold (acc : String × String) (line : List Char) : String × String :=
  if ['e', 'v', 'e', 'n', 't', ':'].isPrefixOf line then (⟨pyStrip (line.drop 6)⟩, acc.2)
  else if ['d', 'a', 't', 'a', ':'].isPrefixOf line then (acc.1, ⟨pyStrip (line.drop 5)⟩)
  else acc

/-- `parse_sse_event` (lines 193-204): fold the block's lines over the
defaults `("message", "")`. -/
def parse_sse_event (ev : List Char) : String × String :=
  (splitOnNl ev).foldl sseFold ("message", "")

/-- Membership in `('progress', 'notification')` (line 168). -/
def isProgressType (t : String) : Bool := t = "progress" || t = "notification"

/-- Membership in `('response', 'result')` (line 174). -/
def isTerminalType (t : String) : Bool := t = "response" || t = "result"

/-- `buffer.split('\n\n', 1)` when the delimiter occurs: the part before the
first blank line and the part after it. -/
def splitOnceNN : List Char → Option (List Char × List Char)
  | [] => none
  | [_] => none
  | c :: c2 :: t =>
    if c = '\n' ∧ c2 = '\n' then some ([], t)
    else
      match splitOnceNN (c2 :: t) with
      | some (a, b) => some (c :: a, b)
      | none => none

/-- The inner `while '\n\n' in buffer` loop (lines 164-177): extract complete
event blocks, queue non-empty `progress`/`notification` data as pushed lines,
stop at the first `response`/`result` block (whatever its data).  Returns
(terminal data if one was hit, pushed lines, remaining buffer).  Fuel-
structural; each extraction consumes at least the two delimiter characters,
so `fuel = buffer.length` always suffices. -/
def drainBuffer : Nat → List Char → List String → Option String × List String × List Char
  | 0, buf, pushes => (none, pushes, buf)
  | f + 1, buf, pushes =>
    match splitOnceNN buf with
    | none => (none, pushes, buf)
    | some (ev, rest) =>
      let td := parse_sse_event ev
      if isProgressType td.1 then
        drainBuffer f rest (if td.2 ≠ "" then pushes ++ [td.2] else pushes)
      else if isTerminalType td.1 then
        (some td.2, pushes, rest)
      else drainBuffer f rest pushes

/-- The chunk loop (lines 160-180): append each received chunk to the buffer
and drain it.  A terminal block with truthy (non-empty) data breaks out of the
loop; one with empty data falls through `if final_response:` (line 179) and
reading continues.  At end of stream the caller's `if final_response:`
(line 182) sees either `None` or the falsy `""`, so both are `none` here. -/
def consumeChunks : List String → List Char → List String → Option String × List String
  | [], _, pushes => (none, pushes)
  | ch :: rest, buf, pushes =>
    match drainBuffer (buf ++ ch.data).length (buf ++ ch.data) pushes with
    | (some d, pushes2, leftover) =>
      if d ≠ "" then (some d, pushes2)
      else consumeChunks rest leftover pushes2
    | (none, pushes2, leftover) => consumeChunks rest leftover pushes2

/-- `handle_sse_response` (lines 136-190).  Returns the `(body, session_id)`
pair handed back to `forward_request`, plus the progress lines printed to
stdout while the stream was read.  Any failure before the loop — body not
JSON, not a dict (`.get` raises), guard mismatch — lands in the `except` arm,
which returns the original pair (with no pushes, since nothing was printed). -/
def handle_sse_response (body : String) (sid : Option String) (chunks : List String) :
    (String × Option String) × List String :=
  match loads body with
  | none => ((body, sid), [])
  | some info =>
    match info with
    | .obj kvs =>
      (match pyGet kvs "status" with
       | some (.str st) =>
         if st = "accepted" then
           (match pyGet kvs "sseUrl" with
            | none => ((body, sid), [])
            | some url =>
              if jsonTruthy url then
                match consumeChunks chunks [] [] with
                | (some d, pushes) => ((d, sid), pushes)
                | (none, pushes) => ((body, sid), pushes)
              else ((body, sid), []))
         else ((body, sid), [])
       | _ => ((body, sid), []))
    | _ => ((body, sid), [])

/-! ## The request forwarder (`forward_request`) -/

/-- The network's answer to one POST, as seen by `forward_request`:
`urllib.request.urlopen` yields a response (status, body, optional
`Mcp-Session-Id` header) or raises (`HTTPError` with a body, `URLError` with a
reason, or anything else). -/
inductive HttpOutcome where
  | ok (status : Nat) (body : String) (sessionHeader : Option String)
  | httpError (code : Nat) (body : String)
  | urlError (reason : String)
  | exc (msg : String)

/-- The headers `forward_request` attaches (lines 85-87): content type always,
the session header only when `session_id` is truthy (so never for `""`). -/
def forwardHeaders (sid : Option String) : List (String × String) :=
  [("Content-Type", "application/json")] ++
  (match sid with
   | some s => if s ≠ "" then [("Mcp-Session-Id", s)] else []
   | none => [])

/-- `forward_request` (lines 81-133) minus the wire: given the outcome the
network produced (and the SSE chunk stream, consulted only on a 202), the
`(response_body, new_session_id)` it returns plus the lines it printed.
`resp.headers.get('Mcp-Session-Id', session_id)` keeps the prior id when the
header is absent; every `except` arm returns the prior id unchanged. -/
def forward_request (_requestData : String) (sid : Option String) (out : HttpOutcome)
    (chunks : List String) : (String × Option String) × List String :=
  match out with
  | .ok status body hdr =>
    let newSid := match hdr with | some h => some h | none => sid
    if status = 202 then handle_sse_response body newSid chunks
    else ((body, newSid), [])
  | .httpError _ body => ((body, sid), [])
  | .urlError reason =>
    ((dumps true (errorBody .null (-32603) ("Connection failed: " ++ reason)), sid), [])
  | .exc msg => ((dumps true (errorBody .null (-32603) msg), sid), [])

/-! ## The main loop -/

/-- The `f"Parse error: {e}"` text of line 294.  The decoder detail Python
interpolates is irrelevant to every claim, so the model keeps the prefix only. -/
def parseErrorMessage (_line : String) : String := "Parse error"

/-- The `str(e)` text of line 298 for the `AttributeError` raised by
`request.get` when the parsed request is not a dict; the exact wording is
irrelevant to every claim. -/
def attributeErrorMessage : String := "attribute error"

/-- The id backfill of `main` (lines 282-288): if the body parses as a dict,
the request had an id, and the response's id `is None` (absent or `null`),
set it and re-serialize with default separators; any failure (parse error,
`.get` on a non-dict) is swallowed and the body passes through unchanged. -/
def backfillId (response : String) (requestId : Option Json) : String :=
  match loads response with
  | some (.obj rkvs) =>
    (match requestId with
     | some rid =>
       (match pyGet rkvs "id" with
        | none => dumps true (.obj (setKey rkvs "id" rid))
        | some _ => response)
     | none => response)
  | _ => response

/-- One iteration of `main`'s stdin loop (lines 264-298) on a raw input line:
returns (response lines printed, session id afterwards, SSE progress lines
printed).  Blank lines are skipped; an unparsable line yields the `-32700`
error line; a parsed non-dict request makes `request.get("id")` raise
`AttributeError`, caught by the outer handler as a `-32603` error line; an
empty forwarded body prints nothing (`if response:`); otherwise the body is
id-backfilled and written through `write_response`. -/
def processLine (line : String) (sid : Option String) (out : HttpOutcome)
    (chunks : List String) : List String × Option String × List String :=
  let l := pyStripS line
  if l.data = [] then ([], sid, [])
  else
    match loads l with
    | none => ([write_error_line .null (-32700) (parseErrorMessage line)], sid, [])
    | some req =>
      match req with
      | .obj reqKvs =>
        let requestId := pyGet reqKvs "id"
        let r := forward_request l sid out chunks
        if r.1.1 = "" then ([], r.1.2, r.2)
        else ([write_response (backfillId r.1.1 requestId)], r.1.2, r.2)
      | _ => ([write_error_line .null (-32603) attributeErrorMessage], sid, [])

/-- The whole stdin loop over a list of input lines, each with the network's
behaviour for it; produces every stdout line in order (progress pushes happen
while the request is in flight, so they precede its response line). -/
def runLoop : List (String × HttpOutcome × List String) → Option String → List String
  | [], _ => []
  | (line, out, chunks) :: rest, sid =>
    let r := processLine line sid out chunks
    r.2.2 ++ r.1 ++ runLoop rest r.2.1

/-! ## Server discovery (`find_ue5_server`) -/

/-- `hosts_to_try` (line 64). -/
def hostsToTry (host : String) : List String :=
  if host = "localhost" then ["127.0.0.1", "localhost"] else [host]

/-- `range(27000, 27011)` (line 72). -/
def portRange : List Nat := List.range' 27000 11

/-- Probe a candidate list in order with the health oracle, stopping at the
first success; also returns the trace of pairs actually probed (in order,
including the successful one). -/
def probeSeq (alive : String → Nat → Bool) : List (String × Nat) → Option (String × Nat) × List (String × Nat)
  | [] => (none, [])
  | hp :: t =>
    if alive hp.1 hp.2 then (some hp, [hp])
    else
      let r := probeSeq alive t
      (r.1, hp :: r.2)

/-- The scan pairs of the second loop (lines 71-76) for one candidate host:
every port of the range except the one skipped by
`p == port and h == host` (line 73). -/
def pairsFor (host : String) (port : Nat) (h : String) : List (String × Nat) :=
  (portRange.filter (fun p => !(p == port && h == host))).map (fun p => (h, p))

/-- All scan pairs of the second loop, host-major. -/
def scanPairs (host : String) (port : Nat) : List (String × Nat) :=
  (hostsToTry host).foldr (fun h acc => pairsFor host port h ++ acc) []

/-- `find_ue5_server` (lines 61-78) with the health check as an oracle,
instrumented with the trace of `(host, port)` pairs probed: phase one probes
the configured port on each candidate host; phase two runs the range scan. -/
def find_ue5_server_trace (host : String) (port : Nat) (alive : String → Nat → Bool) :
    Option (String × Nat) × List (String × Nat) :=
  let r1 := probeSeq alive ((hostsToTry host).map (fun h => (h, port)))
  match r1.1 with
  | some hp => (some hp, r1.2)
  | none =>
    let r2 := probeSeq alive (scanPairs host port)
    (r2.1, r1.2 ++ r2.2)

/-- `find_ue5_server`'s return value. -/
def find_ue5_server (host : String) (port : Nat) (alive : String → Nat → Bool) :
    Option (String × Nat) :=
  (find_ue5_server_trace host port alive).1

/-! ## Declarative views used by the theorems

Spec-side definitions: a block-level description of the SSE chunk loop, the
flat list of discovery candidates, the per-line field extractors of the SSE
event parser, and small guard predicates.  The theorems below relate the
translated bridge functions to these. -/

/-- Complete blank-line-delimited blocks of a text, plus the trailing
remainder that no blank line terminates. -/
def blocksAux : List Char → List (List Char) × List Char
  | [] => ([], [])
  | [c] => ([], [c])
  | c :: c2 :: t =>
    if c = '\n' ∧ c2 = '\n' then
      let r := blocksAux t
      ([] :: r.1, r.2)
    else
      match blocksAux (c2 :: t) with
      | (b :: bs, lo) => ((c :: b) :: bs, lo)
      | ([], lo) => ([], c :: lo)

/-- Concatenation of the stream's chunks. -/
def concatChunks : List String → List Char
  | [] => []
  | ch :: t => ch.data ++ concatChunks t

/-- Block-level scan of complete events: queue non-empty `progress` and
`notification` data, stop at the first `response`/`result` block.  Returns
the terminal data (if hit), the queued lines, and the blocks after the
terminal. -/
def scanBlocks : List (List Char) → List String → Option String × List String × List (List Char)
  | [], pushes => (none, pushes, [])
  | b :: bs, pushes =>
    let td := parse_sse_event b
    if isProgressType td.1 then
      scanBlocks bs (if td.2 ≠ "" then pushes ++ [td.2] else pushes)
    else if isTerminalType td.1 then (some td.2, pushes, bs)
    else scanBlocks bs pushes

/-- Reassemble blocks and a leftover into the original text. -/
def rejoinBlocks : List (List Char) → List Char → List Char
  | [], lo => lo
  | b :: bs, lo => b ++ '\n' :: '\n' :: rejoinBlocks bs lo

/-- No `response`/`result` block of the list carries empty data. -/
def noEmptyTerminal (bs : List (List Char)) : Prop :=
  ∀ b ∈ bs, isTerminalType (parse_sse_event b).1 = true → (parse_sse_event b).2 ≠ ""

/-- The guard of `handle_sse_response` (lines 139-149): the body parses to a
dict whose `status` is the string `"accepted"` and whose `sseUrl` is truthy. -/
def sseDeferralAccepted (body : String) : Bool :=
  match loads body with
  | some (.obj kvs) =>
    (match pyGet kvs "status" with
     | some (.str st) =>
       if st = "accepted" then
         (match pyGet kvs "sseUrl" with
          | some url => jsonTruthy url
          | none => false)
       else false
     | _ => false)
  | _ => false

/-- Every pair `find_ue5_server` may probe, in probe order: the configured
port on each candidate host, then the scan pairs. -/
def discoveryCandidates (host : String) (port : Nat) : List (String × Nat) :=
  (hostsToTry host).map (fun h => (h, port)) ++ scanPairs host port

/-- The `event:` field of one SSE line, when the line carries one. -/
def sseFieldEvent (line : List Char) : Option String :=
  if ['e', 'v', 'e', 'n', 't', ':'].isPrefixOf line then some ⟨pyStrip (line.drop 6)⟩ else none

/-- The `data:` field of one SSE line, when the line carries one. -/
def sseFieldData (line : List Char) : Option String :=
  if ['d', 'a', 't', 'a', ':'].isPrefixOf line then some ⟨pyStrip (line.drop 5)⟩ else none

/-- Whether a parsed request is a dict (`request.get` works on it). -/
def isObjJson : Json → Bool
  | .obj _ => true
  | _ => false

/-! # Theorems

## Round-trip machinery: digits -/

/-- A continuation that cannot extend a digit run: empty input or a non-digit
first character.  Every JSON delimiter (`,`, `]`, `}`, whitespace, end of
input) qualifies. -/
def digitDelim : List Char → Bool
  | [] => true
  | c :: _ => !c.isDigit

theorem skipWs_cons_not {c : Char} (t : List Char) (h : isJsonWs c = false) :
    skipWs (c :: t) = c :: t := by
  simp [skipWs, h]

/-- Everything the round trip needs about a single decimal digit character. -/
theorem digitCh_spec : ∀ d, d < 10 →
    (digitCh d).isDigit = true ∧ digitVal (digitCh d) = d ∧ isJsonWs (digitCh d) = false ∧
    digitCh d ≠ '"' ∧ digitCh d ≠ '{' ∧ digitCh d ≠ '[' ∧ digitCh d ≠ 'n' ∧
    digitCh d ≠ 't' ∧ digitCh d ≠ 'f' ∧ digitCh d ≠ '-' ∧ digitCh d ≠ ']' ∧
    digitCh d ≠ '}' := by decide

theorem digitCh_ne_zeroCh : ∀ d, d < 10 → d ≠ 0 → digitCh d ≠ '0' := by decide

theorem hexVal_hexCh : ∀ k, k < 16 → hexVal? (hexCh k) = some k := by decide

/-- `serNatAux` computes the base-10 digits, most significant first, whenever
its fuel is at least `n`. -/
theorem serNatAux_eq_digits : ∀ f n, n ≤ f → serNatAux f n = ((Nat.digits 10 n).map digitCh).reverse := by
  intro f
  induction f with
  | zero =>
    intro n hn
    interval_cases n
    simp [serNatAux]
  | succ f ih =>
    intro n hn
    by_cases h0 : n = 0
    · subst h0; simp [serNatAux]
    · rw [serNatAux, if_neg h0, ih (n / 10) (by omega),
        Nat.digits_def' (by norm_num : 1 < 10) (Nat.pos_of_ne_zero h0)]
      simp

theorem serNat_eq_digits (n : Nat) (h : n ≠ 0) :
    serNat n = ((Nat.digits 10 n).reverse.map digitCh) := by
  rw [serNat, if_neg h, serNatAux_eq_digits (n + 1) n (by omega), List.map_reverse]

/-- `takeDigitsAcc` consumes exactly a run of digit characters, stopping at a
delimiter, folding the digits onto the accumulator. -/
theorem takeDigitsAcc_run : ∀ (ds : List Char), (∀ c ∈ ds, c.isDigit = true) →
    ∀ (acc : Nat) (rest : List Char), digitDelim rest = true →
    takeDigitsAcc acc (ds ++ rest) = (ds.foldl (fun a c => a * 10 + digitVal c) acc, rest) := by
  intro ds
  induction ds with
  | nil =>
    intro _ acc rest hr
    match rest with
    | [] => simp [takeDigitsAcc]
    | c :: t =>
      simp only [digitDelim, Bool.not_eq_true'] at hr
      simp [takeDigitsAcc, hr]
  | cons c t ih =>
    intro hds acc rest hr
    have hc : c.isDigit = true := hds c (by simp)
    simp only [List.cons_append, takeDigitsAcc, hc, if_true, List.foldl_cons]
    exact ih (fun x hx => hds x (by simp [hx])) _ rest hr

/-- Folding decimal digits onto an accumulator, big-endian. -/
theorem foldl_digitCh : ∀ (bs : List Nat), (∀ d ∈ bs, d < 10) → ∀ acc : Nat,
    (bs.map digitCh).foldl (fun a c => a * 10 + digitVal c) acc
      = acc * 10 ^ bs.length + Nat.ofDigits 10 bs.reverse := by
  intro bs
  induction bs with
  | nil => intro _ acc; simp [Nat.ofDigits]
  | cons b bt ih =>
    intro h acc
    have hb : b < 10 := h b (by simp)
    have hfold := ih (fun d hd => h d (by simp [hd])) (acc * 10 + b)
    simp only [List.map_cons, List.foldl_cons, (digitCh_spec b hb).2.1, hfold,
      List.reverse_cons, List.length_cons, Nat.ofDigits_append, Nat.ofDigits_singleton,
      List.length_reverse]
    ring

/-- The digit-run round trip: parsing the decimal print of `n` (with a
delimiter following) recovers `n`. -/
theorem parseIntPart_serNat (n : Nat) (rest : List Char) (hr : digitDelim rest = true) :
    parseIntPart (serNat n ++ rest) = some (n, rest) := by
  by_cases h0 : n = 0
  · subst h0
    simp [serNat, parseIntPart]
  · have hne : Nat.digits 10 n ≠ [] := Nat.digits_ne_nil_iff_ne_zero.mpr h0
    have hrev : (Nat.digits 10 n).reverse ≠ [] := by simpa using hne
    obtain ⟨b0, bt, hB⟩ := List.exists_cons_of_ne_nil hrev
    have hdig : Nat.digits 10 n = bt.reverse ++ [b0] := by
      rw [← List.reverse_reverse (Nat.digits 10 n), hB]
      simp
    have hmem : ∀ d ∈ (Nat.digits 10 n).reverse, d < 10 := by
      intro d hd
      exact Nat.digits_lt_base (by norm_num) (List.mem_reverse.mp hd)
    have hb0ten : b0 < 10 := hmem b0 (by rw [hB]; simp)
    have hb0 : b0 ≠ 0 := by
      have hlast := Nat.getLast_digit_ne_zero 10 h0
      have h1 : (Nat.digits 10 n).getLast? = some b0 := by
        rw [hdig, List.getLast?_concat]
      have h2 := List.getLast?_eq_getLast_of_ne_nil hne
      rw [h2] at h1
      intro hb
      apply hlast
      rw [Option.some_inj.mp h1, hb]
    have hbt : ∀ c ∈ bt.map digitCh, c.isDigit = true := by
      intro c hc
      obtain ⟨d, hd, rfl⟩ := List.mem_map.mp hc
      exact (digitCh_spec d (hmem d (by rw [hB]; simp [hd]))).1
    have hser : serNat n ++ rest = digitCh b0 :: (bt.map digitCh ++ rest) := by
      rw [serNat_eq_digits n h0, hB]
      simp
    rw [hser, parseIntPart, if_neg (digitCh_ne_zeroCh b0 hb0ten hb0),
      if_pos (digitCh_spec b0 hb0ten).1, (digitCh_spec b0 hb0ten).2.1,
      takeDigitsAcc_run (bt.map digitCh) hbt b0 rest hr]
    have hfold := foldl_digitCh bt (fun d hd => hmem d (by rw [hB]; simp [hd])) b0
    have hof : n = Nat.ofDigits 10 bt.reverse + 10 ^ bt.reverse.length * b0 := by
      conv_lhs => rw [← Nat.ofDigits_digits 10 n, hdig]
      rw [Nat.ofDigits_append, Nat.ofDigits_singleton]
    have hval : b0 * 10 ^ bt.length + Nat.ofDigits 10 bt.reverse = n := by
      rw [hof, List.length_reverse]
      ring
    rw [hfold, hval]

/-! ## Round-trip machinery: strings -/

/-- Parsing one escaped character undoes `escChar`. -/
theorem parseStrBody_escChar (f : Nat) (c : Char) (tail : List Char) :
    parseStrBody (f + 1) (escChar c ++ tail) = consStr c (parseStrBody f tail) := by
  by_cases h1 : c = '"'
  · subst h1; rfl
  by_cases h2 : c = '\\'
  · subst h2; rfl
  by_cases h3 : c = Char.ofNat 8
  · subst h3
    rw [show escChar (Char.ofNat 8) = ['\\', 'b'] from by decide]
    rfl
  by_cases h4 : c = Char.ofNat 12
  · subst h4
    rw [show escChar (Char.ofNat 12) = ['\\', 'f'] from by decide]
    rfl
  by_cases h5 : c = '\n'
  · subst h5; rfl
  by_cases h6 : c = '\r'
  · subst h6; rfl
  by_cases h7 : c = '\t'
  · subst h7; rfl
  by_cases h8 : c.toNat < 32
  · have hesc : escChar c = ['\\', 'u', '0', '0', hexCh (c.toNat / 16), hexCh (c.toNat % 16)] := by
      rw [escChar, if_neg h1, if_neg h2, if_neg h3, if_neg h4, if_neg h5, if_neg h6, if_neg h7,
        if_pos h8]
    have hhi : c.toNat / 16 < 16 := by omega
    have hlo : c.toNat % 16 < 16 := by omega
    have hstep : parseStrBody (f + 1) ('\\' :: 'u' :: '0' :: '0' :: hexCh (c.toNat / 16) :: hexCh (c.toNat % 16) :: tail)
        = (match parseHex4 ('0' :: '0' :: hexCh (c.toNat / 16) :: hexCh (c.toNat % 16) :: tail) with
           | some (ch, t) => consStr ch (parseStrBody f t)
           | none => none) := rfl
    have hhex : parseHex4 ('0' :: '0' :: hexCh (c.toNat / 16) :: hexCh (c.toNat % 16) :: tail)
        = some (c, tail) := by
      have harith : ((0 * 16 + 0) * 16 + c.toNat / 16) * 16 + c.toNat % 16 = c.toNat := by omega
      rw [parseHex4, show hexVal? '0' = some 0 from rfl, hexVal_hexCh _ hhi, hexVal_hexCh _ hlo]
      show some (Char.ofNat (((0 * 16 + 0) * 16 + c.toNat / 16) * 16 + c.toNat % 16), tail)
        = some (c, tail)
      rw [harith, Char.ofNat_toNat]
    rw [hesc]
    simp only [List.cons_append, List.nil_append]
    rw [hstep, hhex]
  · have hesc : escChar c = [c] := by
      rw [escChar, if_neg h1, if_neg h2, if_neg h3, if_neg h4, if_neg h5, if_neg h6, if_neg h7,
        if_neg h8]
    rw [hesc]
    simp only [List.cons_append, List.nil_append]
    rw [parseStrBody, if_neg h1, if_neg h2, if_neg h8]

/-- Parsing an escaped body stops exactly at the closing quote. -/
theorem parseStrBody_escapeAll : ∀ (cs : List Char) (f : Nat) (rest : List Char),
    cs.length < f → parseStrBody f (escapeAll cs ++ '"' :: rest) = some (cs, rest) := by
  intro cs
  induction cs with
  | nil =>
    intro f rest hf
    match f, hf with
    | g + 1, _ => rfl
  | cons c t ih =>
    intro f rest hf
    match f, hf with
    | g + 1, hf =>
      rw [escapeAll, List.append_assoc, parseStrBody_escChar,
        ih g rest (by simpa using Nat.lt_of_succ_lt_succ hf)]
      rfl

/-! ## Round-trip machinery: heads and whitespace -/

/-- The decimal print of a natural number starts with a digit character. -/
theorem serNat_head (n : Nat) : ∃ d, d < 10 ∧ ∃ t, serNat n = digitCh d :: t := by
  by_cases h0 : n = 0
  · subst h0
    exact ⟨0, by norm_num, [], rfl⟩
  · have hne : Nat.digits 10 n ≠ [] := Nat.digits_ne_nil_iff_ne_zero.mpr h0
    have hrev : (Nat.digits 10 n).reverse ≠ [] := by simpa using hne
    obtain ⟨b0, bt, hB⟩ := List.exists_cons_of_ne_nil hrev
    have hb0ten : b0 < 10 :=
      Nat.digits_lt_base (by norm_num) (List.mem_reverse.mp (by rw [hB]; simp))
    refine ⟨b0, hb0ten, bt.map digitCh, ?_⟩
    rw [serNat_eq_digits n h0, hB]
    simp

/-- Every serialized value begins with a character that is not whitespace and
closes neither an array nor an object. -/
theorem serJson_head (pad : Bool) (j : Json) :
    ∃ c t, serJson pad j = c :: t ∧ isJsonWs c = false ∧ c ≠ ']' ∧ c ≠ '}' := by
  cases j with
  | null => refine ⟨'n', _, rfl, ?_, ?_, ?_⟩ <;> decide
  | bool b => cases b <;> (refine ⟨_, _, rfl, ?_, ?_, ?_⟩ <;> decide)
  | num i =>
    by_cases hi : i < 0
    · refine ⟨'-', serNat i.natAbs, ?_, by decide, by decide, by decide⟩
      simp [serJson, serInt, hi]
    · obtain ⟨d, hd, t, ht⟩ := serNat_head i.toNat
      obtain ⟨-, -, hws, -, -, -, -, -, -, -, hbr, hbc⟩ := digitCh_spec d hd
      refine ⟨digitCh d, t, ?_, hws, hbr, hbc⟩
      simp [serJson, serInt, hi, ht]
  | str s => refine ⟨'"', _, rfl, ?_, ?_, ?_⟩ <;> decide
  | arr xs => refine ⟨'[', _, rfl, ?_, ?_, ?_⟩ <;> decide
  | obj kvs => refine ⟨'\x7b', _, rfl, ?_, ?_, ?_⟩ <;> decide

theorem serJson_length_pos (pad : Bool) (j : Json) : 0 < (serJson pad j).length := by
  obtain ⟨c, t, h, -, -, -⟩ := serJson_head pad j
  rw [h]
  simp

theorem skipWs_serJson (pad : Bool) (j : Json) (x : List Char) :
    skipWs (serJson pad j ++ x) = serJson pad j ++ x := by
  obtain ⟨c, t, h, hws, -, -⟩ := serJson_head pad j
  rw [h, List.cons_append, skipWs_cons_not _ hws]

theorem skipWs_padCh (pad : Bool) (x : List Char) : skipWs (padCh pad ++ x) = skipWs x := by
  cases pad with
  | true => simp [padCh, skipWs, isJsonWs]
  | false => rfl

theorem padCh_length_le (pad : Bool) : (padCh pad).length ≤ 1 := by
  cases pad <;> simp [padCh]

/-- A value parse only looks at its input through `skipWs`, so a separator
space in front changes nothing. -/
theorem parseValue_pad (f : Nat) (pad : Bool) (x : List Char) :
    parseValue f (padCh pad ++ x) = parseValue f x := by
  cases f with
  | zero => rfl
  | succ f => simp only [parseValue, skipWs_padCh]

theorem parseArrItems_pad (f : Nat) (pad : Bool) (x : List Char) :
    parseArrItems f (padCh pad ++ x) = parseArrItems f x := by
  cases f with
  | zero => rfl
  | succ f => simp only [parseArrItems, parseValue_pad]

theorem parseObjItems_pad (f : Nat) (pad : Bool) (x : List Char) :
    parseObjItems f (padCh pad ++ x) = parseObjItems f x := by
  cases f with
  | zero => rfl
  | succ f => simp only [parseObjItems, skipWs_padCh]

/-! ## Round-trip machinery: parser step lemmas -/

theorem digitDelim_cons (c : Char) (r : List Char) : digitDelim (c :: r) = !c.isDigit := rfl

theorem escChar_length_pos (c : Char) : 1 ≤ (escChar c).length := by
  rw [escChar]
  split_ifs <;> simp

theorem escapeAll_length_ge : ∀ cs : List Char, cs.length ≤ (escapeAll cs).length := by
  intro cs
  induction cs with
  | nil => simp [escapeAll]
  | cons c t ih =>
    have := escChar_length_pos c
    simp only [escapeAll, List.length_append, List.length_cons]
    omega

/-- One unfolding of the value parser on a `"`-headed input (definitional). -/
theorem parseValue_quote_step (f : Nat) (r : List Char) :
    parseValue (f + 1) ('"' :: r)
      = (match parseStrBody f r with
         | some (cs, r2) => some (.str ⟨cs⟩, r2)
         | none => none) := rfl

/-- One unfolding of the value parser on a `[`-headed input (definitional). -/
theorem parseValue_lbracket_step (f : Nat) (r : List Char) :
    parseValue (f + 1) ('[' :: r)
      = (match skipWs r with
         | [] => none
         | c2 :: r2 =>
           if c2 = ']' then some (.arr [], r2)
           else
             match parseArrItems f (c2 :: r2) with
             | some (xs, r3) => some (.arr xs, r3)
             | none => none) := rfl

/-- One unfolding of the value parser on a `{`-headed input (definitional). -/
theorem parseValue_lbrace_step (f : Nat) (r : List Char) :
    parseValue (f + 1) ('{' :: r)
      = (match skipWs r with
         | [] => none
         | c2 :: r2 =>
           if c2 = '}' then some (.obj [], r2)
           else
             match parseObjItems f (c2 :: r2) with
             | some (kvs, r3) => some (.obj kvs, r3)
             | none => none) := rfl

/-- One unfolding of the value parser on a `-`-headed input (definitional). -/
theorem parseValue_minus_step (f : Nat) (r : List Char) :
    parseValue (f + 1) ('-' :: r)
      = (match parseIntPart r with
         | some (n, r2) => some (.num (-(n : Int)), r2)
         | none => none) := rfl

/-- One unfolding of the value parser on a digit-headed input: every branch
test before the number one fails, because a digit is none of those characters. -/
theorem parseValue_digit_step (f : Nat) (c : Char) (r : List Char) (hd : c.isDigit = true) :
    parseValue (f + 1) (c :: r)
      = (match parseIntPart (c :: r) with
         | some (n, r2) => some (.num (n : Int), r2)
         | none => none) := by
  have hsp : c ≠ ' ' := fun h => absurd (h ▸ hd) (by decide)
  have htb : c ≠ '\t' := fun h => absurd (h ▸ hd) (by decide)
  have hnl : c ≠ '\n' := fun h => absurd (h ▸ hd) (by decide)
  have hcr : c ≠ '\r' := fun h => absurd (h ▸ hd) (by decide)
  have hws : isJsonWs c = false := by
    rw [isJsonWs]
    simp [hsp, htb, hnl, hcr]
  have hq : c ≠ '"' := fun h => absurd (h ▸ hd) (by decide)
  have hoc : c ≠ '{' := fun h => absurd (h ▸ hd) (by decide)
  have hob : c ≠ '[' := fun h => absurd (h ▸ hd) (by decide)
  have hn : c ≠ 'n' := fun h => absurd (h ▸ hd) (by decide)
  have ht : c ≠ 't' := fun h => absurd (h ▸ hd) (by decide)
  have hf : c ≠ 'f' := fun h => absurd (h ▸ hd) (by decide)
  have hm : c ≠ '-' := fun h => absurd (h ▸ hd) (by decide)
  simp only [parseValue, skipWs_cons_not r hws]
  rw [if_neg hq, if_neg hoc, if_neg hob, if_neg hn, if_neg ht, if_neg hf, if_neg hm, if_pos hd]

/-- One unfolding of the array-items parser (definitional). -/
theorem parseArrItems_step (f : Nat) (s : List Char) :
    parseArrItems (f + 1) s
      = (match parseValue f s with
         | none => none
         | some (v, r) =>
           match skipWs r with
           | [] => none
           | c :: r2 =>
             if c = ',' then
               match parseArrItems f r2 with
               | some (vs, r3) => some (v :: vs, r3)
               | none => none
             else if c = ']' then some ([v], r2)
             else none) := rfl

/-- One unfolding of the object-members parser (definitional). -/
theorem parseObjItems_step (f : Nat) (s : List Char) :
    parseObjItems (f + 1) s
      = (match skipWs s with
         | [] => none
         | c :: r =>
           if c = '"' then
             match parseStrBody f r with
             | none => none
             | some (k, r1) =>
               match skipWs r1 with
               | [] => none
               | c2 :: r2 =>
                 if c2 = ':' then
                   match parseValue f r2 with
                   | none => none
                   | some (v, r3) =>
                     match skipWs r3 with
                     | [] => none
                     | c3 :: r4 =>
                       if c3 = ',' then
                         match parseObjItems f r4 with
                         | some (kvs, r5) => some ((⟨k⟩, v) :: kvs, r5)
                         | none => none
                       else if c3 = '}' then some ([(⟨k⟩, v)], r4)
                       else none
                 else none
           else none) := rfl

/-- A nonempty item list's serialization starts with its first element's. -/
theorem serArrItems_cons_head (pad : Bool) (x : Json) (xs : List Json) :
    ∃ d, serArrItems pad (x :: xs) = serJson pad x ++ d := by
  cases xs with
  | nil => exact ⟨[']'], rfl⟩
  | cons y t => exact ⟨',' :: (padCh pad ++ serArrItems pad (y :: t)), rfl⟩

/-- One unfolding of the object-members parser after the key's opening quote
(definitional). -/
theorem parseObjItems_quote_step (f : Nat) (w : List Char) :
    parseObjItems (f + 1) ('"' :: w)
      = (match parseStrBody f w with
         | none => none
         | some (k, r1) =>
           match skipWs r1 with
           | [] => none
           | c2 :: r2 =>
             if c2 = ':' then
               match parseValue f r2 with
               | none => none
               | some (v, r3) =>
                 match skipWs r3 with
                 | [] => none
                 | c3 :: r4 =>
                   if c3 = ',' then
                     match parseObjItems f r4 with
                     | some (kvs, r5) => some ((⟨k⟩, v) :: kvs, r5)
                     | none => none
                   else if c3 = '}' then some ([(⟨k⟩, v)], r4)
                   else none
             else none) := rfl

/-! ## The round trip -/

mutual

/-- Parsing a serialized value (with a non-digit continuation) recovers it. -/
theorem rt_val : ∀ (j : Json) (pad : Bool) (fuel : Nat) (rest : List Char),
    (serJson pad j).length < fuel → digitDelim rest = true →
    parseValue fuel (serJson pad j ++ rest) = some (j, rest)
  | _, _, 0, _, hf, _ => absurd hf (Nat.not_lt_zero _)
  | .null, _, _ + 1, _, _, _ => rfl
  | .bool true, _, _ + 1, _, _, _ => rfl
  | .bool false, _, _ + 1, _, _, _ => rfl
  | .num i, pad, f + 1, rest, _, hrest => by
    by_cases hi : i < 0
    · have hser : serJson pad (.num i) ++ rest = '-' :: (serNat i.natAbs ++ rest) := by
        simp [serJson, serInt, hi]
      rw [hser, parseValue_minus_step, parseIntPart_serNat _ _ hrest]
      have hcast : (-((i.natAbs : Nat) : Int)) = i := by omega
      rw [show (match (some (i.natAbs, rest) : Option (Nat × List Char)) with
            | some (n, r2) => some (Json.num (-(n : Int)), r2)
            | none => none)
          = some (Json.num (-((i.natAbs : Nat) : Int)), rest) from rfl, hcast]
    · have hser : serJson pad (.num i) ++ rest = serNat i.toNat ++ rest := by
        simp [serJson, serInt, hi]
      obtain ⟨d, hd, t, ht⟩ := serNat_head i.toNat
      have hcons : serNat i.toNat ++ rest = digitCh d :: (t ++ rest) := by
        rw [ht]
        simp
      rw [hser, hcons, parseValue_digit_step f _ _ (digitCh_spec d hd).1, ← hcons,
        parseIntPart_serNat _ _ hrest]
      have hcast : ((i.toNat : Nat) : Int) = i := Int.toNat_of_nonneg (le_of_not_lt hi)
      rw [show (match (some (i.toNat, rest) : Option (Nat × List Char)) with
            | some (n, r2) => some (Json.num ((n : Nat) : Int), r2)
            | none => none)
          = some (Json.num ((i.toNat : Nat) : Int), rest) from rfl, hcast]
  | .str s, pad, f + 1, rest, hf, _ => by
    have hser : serJson pad (.str s) ++ rest = '"' :: (escapeAll s.data ++ '"' :: rest) := by
      simp [serJson, serStr]
    have hlen : s.data.length < f := by
      have h1 := escapeAll_length_ge s.data
      have h2 : (serJson pad (.str s)).length = (escapeAll s.data).length + 2 := by
        simp [serJson, serStr]
      omega
    rw [hser, parseValue_quote_step, parseStrBody_escapeAll s.data f rest hlen]
  | .arr [], _, _ + 1, _, _, _ => rfl
  | .arr (x :: xs), pad, f + 1, rest, hf, _ => by
    obtain ⟨D, hD⟩ := serArrItems_cons_head pad x xs
    obtain ⟨c2, t2, hx, hws2, hbr2, -⟩ := serJson_head pad x
    have hser : serJson pad (.arr (x :: xs)) ++ rest
        = '[' :: (serArrItems pad (x :: xs) ++ rest) := by
      simp [serJson]
    have hskip : skipWs (serArrItems pad (x :: xs) ++ rest)
        = serArrItems pad (x :: xs) ++ rest := by
      rw [hD, List.append_assoc]
      exact skipWs_serJson pad x (D ++ rest)
    have hshape : serArrItems pad (x :: xs) ++ rest = c2 :: (t2 ++ (D ++ rest)) := by
      rw [hD, hx]
      simp
    have hfa : (serArrItems pad (x :: xs)).length < f := by
      have : (serJson pad (.arr (x :: xs))).length
          = (serArrItems pad (x :: xs)).length + 1 := by
        simp [serJson]
      omega
    rw [hser, parseValue_lbracket_step, hskip, hshape]
    show (if c2 = ']' then some (Json.arr [], t2 ++ (D ++ rest))
          else
            match parseArrItems f (c2 :: (t2 ++ (D ++ rest))) with
            | some (xs', r3) => some (Json.arr xs', r3)
            | none => none)
        = some (Json.arr (x :: xs), rest)
    rw [if_neg hbr2, ← hshape, rt_arr x xs pad f rest hfa]
  | .obj [], _, _ + 1, _, _, _ => rfl
  | .obj ((k, v) :: kvs), pad, f + 1, rest, hf, _ => by
    have hser : serJson pad (.obj ((k, v) :: kvs)) ++ rest
        = '{' :: (serObjItems pad ((k, v) :: kvs) ++ rest) := by
      simp [serJson]
    have hfo : (serObjItems pad ((k, v) :: kvs)).length < f := by
      have : (serJson pad (.obj ((k, v) :: kvs))).length
          = (serObjItems pad ((k, v) :: kvs)).length + 1 := by
        simp [serJson]
      omega
    obtain ⟨w, hw⟩ : ∃ w, serObjItems pad ((k, v) :: kvs) ++ rest = '"' :: w := by
      cases kvs with
      | nil =>
        exact ⟨escapeAll k.data ++ '"' :: (':' :: (padCh pad ++ (serJson pad v ++ '}' :: rest))),
          by simp [serObjItems, serStr]⟩
      | cons m t =>
        exact ⟨escapeAll k.data ++ '"' :: (':' :: (padCh pad ++ (serJson pad v
          ++ ',' :: (padCh pad ++ (serObjItems pad (m :: t) ++ rest))))),
          by simp [serObjItems, serStr]⟩
    rw [hser, parseValue_lbrace_step, hw]
    show (match parseObjItems f ('"' :: w) with
          | some (kvs', r3) => some (Json.obj kvs', r3)
          | none => none)
        = some (Json.obj ((k, v) :: kvs), rest)
    rw [← hw, rt_obj (k, v) kvs pad f rest hfo]
  termination_by j _ _ _ _ _ => sizeOf j
  decreasing_by all_goals ((simp_wf; try simp); try omega)

/-- Parsing serialized array items recovers them. -/
theorem rt_arr : ∀ (x : Json) (xs : List Json) (pad : Bool) (f : Nat) (rest : List Char),
    (serArrItems pad (x :: xs)).length < f →
    parseArrItems f (serArrItems pad (x :: xs) ++ rest) = some (x :: xs, rest)
  | _, _, _, 0, _, hf => absurd hf (Nat.not_lt_zero _)
  | x, [], pad, f + 1, rest, hf => by
    have h1 : serArrItems pad [x] ++ rest = serJson pad x ++ (']' :: rest) := by
      simp [serArrItems]
    have hfx : (serJson pad x).length < f := by
      have : (serArrItems pad [x]).length = (serJson pad x).length + 1 := by
        simp [serArrItems]
      omega
    rw [h1, parseArrItems_step, rt_val x pad f (']' :: rest) hfx (by rw [digitDelim_cons]; rfl)]
    rfl
  | x, y :: t, pad, f + 1, rest, hf => by
    have h1 : serArrItems pad (x :: y :: t) ++ rest
        = serJson pad x ++ (',' :: (padCh pad ++ (serArrItems pad (y :: t) ++ rest))) := by
      simp [serArrItems]
    have hlen : (serArrItems pad (x :: y :: t)).length
        = (serJson pad x).length + 1 + (padCh pad).length + (serArrItems pad (y :: t)).length := by
      simp [serArrItems]
      omega
    have hfx : (serJson pad x).length < f := by
      have := serJson_length_pos pad (.arr (y :: t))
      omega
    have hfy : (serArrItems pad (y :: t)).length < f := by
      have := serJson_length_pos pad x
      omega
    have hrec : parseArrItems f (padCh pad ++ (serArrItems pad (y :: t) ++ rest))
        = some (y :: t, rest) := by
      rw [parseArrItems_pad]
      exact rt_arr y t pad f rest hfy
    rw [h1, parseArrItems_step,
      rt_val x pad f (',' :: (padCh pad ++ (serArrItems pad (y :: t) ++ rest))) hfx
        (by rw [digitDelim_cons]; rfl)]
    show (match parseArrItems f (padCh pad ++ (serArrItems pad (y :: t) ++ rest)) with
          | some (vs, r3) => some (x :: vs, r3)
          | none => none)
        = some (x :: y :: t, rest)
    rw [hrec]
  termination_by x xs _ _ _ _ => sizeOf x + sizeOf xs
  decreasing_by all_goals ((simp_wf; try simp); try omega)

/-- Parsing serialized object members recovers them. -/
theorem rt_obj : ∀ (kv : String × Json) (kvs : List (String × Json)) (pad : Bool) (f : Nat)
    (rest : List Char),
    (serObjItems pad (kv :: kvs)).length < f →
    parseObjItems f (serObjItems pad (kv :: kvs) ++ rest) = some (kv :: kvs, rest)
  | _, _, _, 0, _, hf => absurd hf (Nat.not_lt_zero _)
  | (k, v), [], pad, f + 1, rest, hf => by
    have h1 : serObjItems pad [(k, v)] ++ rest
        = '"' :: (escapeAll k.data ++ '"' :: (':' :: (padCh pad ++ (serJson pad v ++ '}' :: rest)))) := by
      simp [serObjItems, serStr]
    have hlen : (serObjItems pad [(k, v)]).length
        = (escapeAll k.data).length + 2 + 1 + (padCh pad).length + (serJson pad v).length + 1 := by
      simp [serObjItems, serStr]
      omega
    have hklen : k.data.length < f := by
      have := escapeAll_length_ge k.data
      omega
    have hvlen : (serJson pad v).length < f := by
      omega
    have hv : parseValue f (padCh pad ++ (serJson pad v ++ '}' :: rest)) = some (v, '}' :: rest) := by
      rw [parseValue_pad]
      exact rt_val v pad f ('}' :: rest) hvlen (by rw [digitDelim_cons]; rfl)
    rw [h1, parseObjItems_quote_step,
      parseStrBody_escapeAll k.data f (':' :: (padCh pad ++ (serJson pad v ++ '}' :: rest))) hklen]
    show (match parseValue f (padCh pad ++ (serJson pad v ++ '}' :: rest)) with
          | none => none
          | some (v', r3) =>
            match skipWs r3 with
            | [] => none
            | c3 :: r4 =>
              if c3 = ',' then
                match parseObjItems f r4 with
                | some (kvs', r5) => some ((⟨k.data⟩, v') :: kvs', r5)
                | none => none
              else if c3 = '}' then some ([(⟨k.data⟩, v')], r4)
              else none)
        = some ([(k, v)], rest)
    rw [hv]
    rfl
  | (k, v), m :: t, pad, f + 1, rest, hf => by
    have h1 : serObjItems pad ((k, v) :: m :: t) ++ rest
        = '"' :: (escapeAll k.data ++ '"' :: (':' :: (padCh pad ++ (serJson pad v
            ++ ',' :: (padCh pad ++ (serObjItems pad (m :: t) ++ rest)))))) := by
      simp [serObjItems, serStr]
    have hlen : (serObjItems pad ((k, v) :: m :: t)).length
        = (escapeAll k.data).length + 2 + 1 + (padCh pad).length + (serJson pad v).length
          + 1 + (padCh pad).length + (serObjItems pad (m :: t)).length := by
      simp [serObjItems, serStr]
      omega
    have hklen : k.data.length < f := by
      have := escapeAll_length_ge k.data
      omega
    have hvlen : (serJson pad v).length < f := by
      omega
    have hrlen : (serObjItems pad (m :: t)).length < f := by
      omega
    have hv : parseValue f (padCh pad ++ (serJson pad v
          ++ ',' :: (padCh pad ++ (serObjItems pad (m :: t) ++ rest))))
        = some (v, ',' :: (padCh pad ++ (serObjItems pad (m :: t) ++ rest))) := by
      rw [parseValue_pad]
      exact rt_val v pad f _ hvlen (by rw [digitDelim_cons]; rfl)
    have hrec : parseObjItems f (padCh pad ++ (serObjItems pad (m :: t) ++ rest))
        = some (m :: t, rest) := by
      rw [parseObjItems_pad]
      exact rt_obj m t pad f rest hrlen
    rw [h1, parseObjItems_quote_step,
      parseStrBody_escapeAll k.data f _ hklen]
    show (match parseValue f (padCh pad ++ (serJson pad v
            ++ ',' :: (padCh pad ++ (serObjItems pad (m :: t) ++ rest)))) with
          | none => none
          | some (v', r3) =>
            match skipWs r3 with
            | [] => none
            | c3 :: r4 =>
              if c3 = ',' then
                match parseObjItems f r4 with
                | some (kvs', r5) => some ((⟨k.data⟩, v') :: kvs', r5)
                | none => none
              else if c3 = '}' then some ([(⟨k.data⟩, v')], r4)
              else none)
        = some ((k, v) :: m :: t, rest)
    rw [hv]
    show (match parseObjItems f (padCh pad ++ (serObjItems pad (m :: t) ++ rest)) with
          | some (kvs', r5) => some ((⟨k.data⟩, v) :: kvs', r5)
          | none => none)
        = some ((k, v) :: m :: t, rest)
    rw [hrec]
  termination_by kv kvs _ _ _ _ => sizeOf kv + sizeOf kvs
  decreasing_by all_goals ((simp_wf; try simp); try omega)

end

/-- The codec round trip: `json.loads` inverts `json.dumps` for either
separator choice. -/
theorem loads_dumps (pad : Bool) (j : Json) : loads (dumps pad j) = some j := by
  have h := rt_val j pad ((serJson pad j).length + 1) [] (by omega) rfl
  rw [List.append_nil] at h
  rw [loads, dumps, loadsL]
  show (match parseValue ((serJson pad j).length + 1) (serJson pad j) with
        | some (j', r) => if skipWs r = [] then some j' else none
        | none => none) = some j
  rw [h]
  rfl

/-! ## SSE machinery: the chunked reader against the block-level view -/

theorem blocksAux_of_none : ∀ l : List Char, splitOnceNN l = none → blocksAux l = ([], l) := by
  intro l
  induction l using blocksAux.induct with
  | case1 => intro _; rfl
  | case2 c => intro _; rfl
  | case3 c c2 t hnn => intro h; rw [splitOnceNN, if_pos hnn] at h; exact absurd h (by simp)
  | case4 c c2 t hnn b bs lo heq ih =>
    intro h
    rw [splitOnceNN, if_neg hnn] at h
    have h2 : splitOnceNN (c2 :: t) = none := by
      match h3 : splitOnceNN (c2 :: t) with
      | none => rfl
      | some (a, b2) => rw [h3] at h; simp at h
    rw [ih h2] at heq
    exact absurd heq (by simp)
  | case5 c c2 t hnn lo heq ih =>
    intro h
    rw [splitOnceNN, if_neg hnn] at h
    have h2 : splitOnceNN (c2 :: t) = none := by
      match h3 : splitOnceNN (c2 :: t) with
      | none => rfl
      | some (a, b2) => rw [h3] at h; simp at h
    rw [blocksAux, if_neg hnn, ih h2]

theorem blocksAux_of_some : ∀ (l a b : List Char), splitOnceNN l = some (a, b) →
    blocksAux l = (a :: (blocksAux b).1, (blocksAux b).2) := by
  intro l
  induction l using blocksAux.induct with
  | case1 => intro a b h; exact absurd h (by simp [splitOnceNN])
  | case2 c => intro a b h; exact absurd h (by simp [splitOnceNN])
  | case3 c c2 t hnn =>
    intro a b h
    rw [splitOnceNN, if_pos hnn] at h
    simp only [Option.some.injEq, Prod.mk.injEq] at h
    rw [blocksAux, if_pos hnn, ← h.1, ← h.2]
  | case4 c c2 t hnn b0 bs lo heq ih =>
    intro a b h
    rw [splitOnceNN, if_neg hnn] at h
    match h2 : splitOnceNN (c2 :: t) with
    | none => rw [h2] at h; exact absurd h (by simp)
    | some (a2, b2) =>
      rw [h2] at h
      simp only [Option.some.injEq, Prod.mk.injEq] at h
      have hb := ih a2 b2 h2
      rw [blocksAux, if_neg hnn, hb, ← h.1, ← h.2]
  | case5 c c2 t hnn lo heq ih =>
    intro a b h
    rw [splitOnceNN, if_neg hnn] at h
    match h2 : splitOnceNN (c2 :: t) with
    | none => rw [h2] at h; exact absurd h (by simp)
    | some (a2, b2) =>
      rw [h2] at h
      have hb := ih a2 b2 h2
      rw [hb] at heq
      simp at heq

theorem splitOnceNN_length : ∀ (l a b : List Char), splitOnceNN l = some (a, b) →
    l.length = a.length + 2 + b.length := by
  intro l
  induction l using splitOnceNN.induct with
  | case1 => intro a b h; exact absurd h (by simp [splitOnceNN])
  | case2 c => intro a b h; exact absurd h (by simp [splitOnceNN])
  | case3 c c2 t hnn =>
    intro a b h
    rw [splitOnceNN, if_pos hnn] at h
    simp only [Option.some.injEq, Prod.mk.injEq] at h
    rw [← h.1, ← h.2]
    simp only [List.length_cons, List.length_nil]
    omega
  | case4 c c2 t hnn a2 b2 heq ih =>
    intro a b h
    rw [splitOnceNN, if_neg hnn, heq] at h
    simp only [Option.some.injEq, Prod.mk.injEq] at h
    have hl := ih a2 b2 heq
    simp only [List.length_cons] at hl
    rw [← h.1, ← h.2]
    simp only [List.length_cons]
    omega
  | case5 c c2 t hnn heq ih =>
    intro a b h
    rw [splitOnceNN, if_neg hnn, heq] at h
    exact absurd h (by simp)

theorem blocksAux_leftover_none : ∀ l : List Char, splitOnceNN (blocksAux l).2 = none := by
  intro l
  induction l using blocksAux.induct with
  | case1 => rfl
  | case2 c => rfl
  | case3 c c2 t hnn ih =>
    rw [blocksAux, if_pos hnn]
    exact ih
  | case4 c c2 t hnn b bs lo heq ih =>
    rw [blocksAux, if_neg hnn, heq]
    rw [heq] at ih
    exact ih
  | case5 c c2 t hnn lo heq ih =>
    rw [blocksAux, if_neg hnn, heq]
    rw [heq] at ih
    simp only at ih
    have h0 : splitOnceNN (c2 :: t) = none := by
      have := blocksAux_of_none (c2 :: t)
      match h3 : splitOnceNN (c2 :: t) with
      | none => rfl
      | some (a, b2) =>
        have h4 := blocksAux_of_some (c2 :: t) a b2 h3
        rw [h4] at heq
        simp at heq
    have h5 := blocksAux_of_none (c2 :: t) h0
    rw [h5] at heq
    simp only [Prod.mk.injEq] at heq
    rw [← heq.2]
    show splitOnceNN (c :: c2 :: t) = none
    rw [splitOnceNN, if_neg hnn, h0]

theorem rejoin_blocksAux : ∀ l : List Char, rejoinBlocks (blocksAux l).1 (blocksAux l).2 = l := by
  intro l
  induction l using blocksAux.induct with
  | case1 => rfl
  | case2 c => rfl
  | case3 c c2 t hnn ih =>
    obtain ⟨h1, h2⟩ := hnn
    subst h1
    subst h2
    rw [blocksAux, if_pos ⟨rfl, rfl⟩]
    show rejoinBlocks ([] :: (blocksAux t).1) (blocksAux t).2 = '\n' :: '\n' :: t
    rw [rejoinBlocks]
    rw [ih]
    rfl
  | case4 c c2 t hnn b bs lo heq ih =>
    rw [heq] at ih
    rw [blocksAux, if_neg hnn, heq]
    show rejoinBlocks ((c :: b) :: bs) lo = c :: c2 :: t
    rw [rejoinBlocks]
    simp only at ih
    rw [rejoinBlocks] at ih
    rw [List.cons_append]
    rw [ih]
  | case5 c c2 t hnn lo heq ih =>
    rw [heq] at ih
    have hlo : lo = c2 :: t := by simpa [rejoinBlocks] using ih
    rw [blocksAux, if_neg hnn, heq]
    show rejoinBlocks [] (c :: lo) = c :: c2 :: t
    rw [rejoinBlocks, hlo]

theorem blocksAux_append : ∀ l m : List Char,
    blocksAux (l ++ m)
      = ((blocksAux l).1 ++ (blocksAux ((blocksAux l).2 ++ m)).1,
         (blocksAux ((blocksAux l).2 ++ m)).2) := by
  intro l
  induction l using blocksAux.induct with
  | case1 => intro m; simp [blocksAux]
  | case2 c => intro m; simp [blocksAux]
  | case3 c c2 t hnn ih =>
    intro m
    obtain ⟨h1, h2⟩ := hnn
    subst h1
    subst h2
    have hl : blocksAux ('\n' :: '\n' :: t) = ([] :: (blocksAux t).1, (blocksAux t).2) := by
      rw [blocksAux, if_pos ⟨rfl, rfl⟩]
    have hlm : blocksAux ('\n' :: '\n' :: (t ++ m))
        = ([] :: (blocksAux (t ++ m)).1, (blocksAux (t ++ m)).2) := by
      rw [blocksAux, if_pos ⟨rfl, rfl⟩]
    show blocksAux ('\n' :: '\n' :: (t ++ m)) = _
    rw [hlm, ih m, hl]
    simp
  | case4 c c2 t hnn b bs lo heq ih =>
    intro m
    have hl : blocksAux (c :: c2 :: t) = ((c :: b) :: bs, lo) := by
      rw [blocksAux, if_neg hnn, heq]
    have hstep : blocksAux (c2 :: (t ++ m))
        = (b :: (bs ++ (blocksAux (lo ++ m)).1), (blocksAux (lo ++ m)).2) := by
      have h6 := ih m
      rw [heq] at h6
      simpa using h6
    show blocksAux (c :: c2 :: (t ++ m)) = _
    rw [blocksAux, if_neg hnn, hstep, hl]
    simp
  | case5 c c2 t hnn lo heq ih =>
    intro m
    have h0 : splitOnceNN (c2 :: t) = none := by
      match h3 : splitOnceNN (c2 :: t) with
      | none => rfl
      | some (a, b2) =>
        have h4 := blocksAux_of_some (c2 :: t) a b2 h3
        rw [h4] at heq
        simp at heq
    have hl : blocksAux (c :: c2 :: t) = ([], c :: c2 :: t) := by
      apply blocksAux_of_none
      rw [splitOnceNN, if_neg hnn, h0]
    rw [hl]
    simp

theorem drainBuffer_none (f : Nat) (buf : List Char) (pushes : List String)
    (h : splitOnceNN buf = none) :
    drainBuffer (f + 1) buf pushes = (none, pushes, buf) := by
  rw [drainBuffer, h]

theorem drainBuffer_step (f : Nat) (buf ev rest : List Char) (pushes : List String)
    (h : splitOnceNN buf = some (ev, rest)) :
    drainBuffer (f + 1) buf pushes
      = (if isProgressType (parse_sse_event ev).1 then
           drainBuffer f rest
             (if (parse_sse_event ev).2 ≠ "" then pushes ++ [(parse_sse_event ev).2] else pushes)
         else if isTerminalType (parse_sse_event ev).1 then
           (some (parse_sse_event ev).2, pushes, rest)
         else drainBuffer f rest pushes) := by
  rw [drainBuffer, h]

theorem scanBlocks_cons (b : List Char) (bs : List (List Char)) (pushes : List String) :
    scanBlocks (b :: bs) pushes
      = (if isProgressType (parse_sse_event b).1 then
           scanBlocks bs
             (if (parse_sse_event b).2 ≠ "" then pushes ++ [(parse_sse_event b).2] else pushes)
         else if isTerminalType (parse_sse_event b).1 then
           (some (parse_sse_event b).2, pushes, bs)
         else scanBlocks bs pushes) := rfl

theorem drainBuffer_spec : ∀ (fuel : Nat) (buf : List Char) (pushes : List String),
    buf.length ≤ fuel →
    drainBuffer fuel buf pushes
      = ((scanBlocks (blocksAux buf).1 pushes).1,
         (scanBlocks (blocksAux buf).1 pushes).2.1,
         rejoinBlocks (scanBlocks (blocksAux buf).1 pushes).2.2 (blocksAux buf).2) := by
  intro fuel
  induction fuel with
  | zero =>
    intro buf pushes hlen
    have hb : buf = [] := List.eq_nil_of_length_eq_zero (Nat.le_zero.mp hlen)
    subst hb
    rfl
  | succ f ih =>
    intro buf pushes hlen
    match hsp : splitOnceNN buf with
    | none =>
      rw [drainBuffer_none f buf pushes hsp, blocksAux_of_none buf hsp]
      rfl
    | some (ev, rest) =>
      have hba := blocksAux_of_some buf ev rest hsp
      have hlq := splitOnceNN_length buf ev rest hsp
      have hrest : rest.length ≤ f := by omega
      rw [drainBuffer_step f buf ev rest pushes hsp, hba]
      rw [scanBlocks_cons]
      by_cases hp : isProgressType (parse_sse_event ev).1 = true
      · simp only [if_pos hp]
        exact ih rest _ hrest
      · by_cases ht : isTerminalType (parse_sse_event ev).1 = true
        · simp only [if_neg hp, if_pos ht]
          simp [rejoin_blocksAux]
        · simp only [if_neg hp, if_neg ht]
          exact ih rest pushes hrest

theorem scanBlocks_none_rest : ∀ (bs : List (List Char)) (pushes pu : List String)
    (r : List (List Char)), scanBlocks bs pushes = (none, pu, r) → r = [] := by
  intro bs
  induction bs with
  | nil =>
    intro pushes pu r h
    simp [scanBlocks] at h
    exact h.2
  | cons b bs ih =>
    intro pushes pu r h
    rw [scanBlocks_cons] at h
    by_cases hp : isProgressType (parse_sse_event b).1 = true
    · rw [if_pos hp] at h
      exact ih _ pu r h
    · by_cases ht : isTerminalType (parse_sse_event b).1 = true
      · rw [if_neg hp, if_pos ht] at h
        simp at h
      · rw [if_neg hp, if_neg ht] at h
        exact ih _ pu r h

theorem scanBlocks_terminal_source : ∀ (bs : List (List Char)) (pushes pu : List String)
    (r : List (List Char)) (d : String), scanBlocks bs pushes = (some d, pu, r) →
    ∃ b ∈ bs, isTerminalType (parse_sse_event b).1 = true ∧ (parse_sse_event b).2 = d := by
  intro bs
  induction bs with
  | nil =>
    intro pushes pu r d h
    simp [scanBlocks] at h
  | cons b bs ih =>
    intro pushes pu r d h
    rw [scanBlocks_cons] at h
    by_cases hp : isProgressType (parse_sse_event b).1 = true
    · rw [if_pos hp] at h
      obtain ⟨b2, hm, hb2⟩ := ih _ pu r d h
      exact ⟨b2, List.mem_cons_of_mem b hm, hb2⟩
    · by_cases ht : isTerminalType (parse_sse_event b).1 = true
      · rw [if_neg hp, if_pos ht] at h
        simp only [Prod.mk.injEq, Option.some.injEq] at h
        exact ⟨b, List.mem_cons_self b bs, ht, h.1⟩
      · rw [if_neg hp, if_neg ht] at h
        obtain ⟨b2, hm, hb2⟩ := ih _ pu r d h
        exact ⟨b2, List.mem_cons_of_mem b hm, hb2⟩

theorem scanBlocks_append : ∀ (bs1 bs2 : List (List Char)) (pushes : List String),
    scanBlocks (bs1 ++ bs2) pushes
      = (match scanBlocks bs1 pushes with
         | (some d, pu, r) => (some d, pu, r ++ bs2)
         | (none, pu, _) => scanBlocks bs2 pu) := by
  intro bs1
  induction bs1 with
  | nil => intro bs2 pushes; rfl
  | cons b bs ih =>
    intro bs2 pushes
    rw [List.cons_append, scanBlocks_cons, scanBlocks_cons]
    by_cases hp : isProgressType (parse_sse_event b).1 = true
    · simp only [if_pos hp]
      exact ih bs2 _
    · by_cases ht : isTerminalType (parse_sse_event b).1 = true
      · simp only [if_neg hp, if_pos ht]
      · simp only [if_neg hp, if_neg ht]
        exact ih bs2 pushes

theorem consumeChunks_cons (ch : String) (rest : List String) (buf : List Char)
    (pushes : List String) :
    consumeChunks (ch :: rest) buf pushes
      = (match drainBuffer (buf ++ ch.data).length (buf ++ ch.data) pushes with
         | (some d, pushes2, leftover) =>
           if d ≠ "" then (some d, pushes2) else consumeChunks rest leftover pushes2
         | (none, pushes2, leftover) => consumeChunks rest leftover pushes2) := rfl

theorem consumeChunks_spec : ∀ (chunks : List String) (buf : List Char) (pushes : List String),
    splitOnceNN buf = none →
    noEmptyTerminal (blocksAux (buf ++ concatChunks chunks)).1 →
    consumeChunks chunks buf pushes
      = ((scanBlocks (blocksAux (buf ++ concatChunks chunks)).1 pushes).1,
         (scanBlocks (blocksAux (buf ++ concatChunks chunks)).1 pushes).2.1) := by
  intro chunks
  induction chunks with
  | nil =>
    intro buf pushes hsp hne
    have h1 : buf ++ concatChunks [] = buf := by simp [concatChunks]
    rw [h1, blocksAux_of_none buf hsp]
    rfl
  | cons ch rest ih =>
    intro buf pushes hsp hne
    have hfull : buf ++ concatChunks (ch :: rest) = (buf ++ ch.data) ++ concatChunks rest := by
      rw [concatChunks, List.append_assoc]
    have hdec := blocksAux_append (buf ++ ch.data) (concatChunks rest)
    have hdrain := drainBuffer_spec (buf ++ ch.data).length (buf ++ ch.data) pushes (le_refl _)
    rcases hS : scanBlocks (blocksAux (buf ++ ch.data)).1 pushes with ⟨od, pu, r⟩
    cases od with
    | some d =>
      have hdrain2 : drainBuffer (buf ++ ch.data).length (buf ++ ch.data) pushes
          = (some d, pu, rejoinBlocks r (blocksAux (buf ++ ch.data)).2) := by
        rw [hdrain, hS]
      obtain ⟨b, hmem, hterm, hdata⟩ := scanBlocks_terminal_source _ pushes pu r d hS
      have hbfull : b ∈ (blocksAux (buf ++ concatChunks (ch :: rest))).1 := by
        rw [hfull, hdec]
        exact List.mem_append_left _ hmem
      have hdne : d ≠ "" := by
        have h2 := hne b hbfull hterm
        rw [hdata] at h2
        exact h2
      rw [consumeChunks_cons, hdrain2]
      show (if d ≠ "" then (some d, pu)
            else consumeChunks rest (rejoinBlocks r (blocksAux (buf ++ ch.data)).2) pu) = _
      rw [if_pos hdne]
      have hsa : scanBlocks ((blocksAux (buf ++ ch.data)).1
            ++ (blocksAux ((blocksAux (buf ++ ch.data)).2 ++ concatChunks rest)).1) pushes
          = (some d, pu,
             r ++ (blocksAux ((blocksAux (buf ++ ch.data)).2 ++ concatChunks rest)).1) := by
        rw [scanBlocks_append, hS]
      have hfin : scanBlocks (blocksAux (buf ++ concatChunks (ch :: rest))).1 pushes
          = (some d, pu,
             r ++ (blocksAux ((blocksAux (buf ++ ch.data)).2 ++ concatChunks rest)).1) := by
        rw [hfull, hdec]
        exact hsa
      rw [hfin]
    | none =>
      have hr : r = [] := scanBlocks_none_rest _ pushes pu r hS
      subst hr
      have hdrain2 : drainBuffer (buf ++ ch.data).length (buf ++ ch.data) pushes
          = (none, pu, (blocksAux (buf ++ ch.data)).2) := by
        rw [hdrain, hS]
        rfl
      rw [consumeChunks_cons, hdrain2]
      show consumeChunks rest (blocksAux (buf ++ ch.data)).2 pu = _
      have hsp2 : splitOnceNN (blocksAux (buf ++ ch.data)).2 = none :=
        blocksAux_leftover_none _
      have hne2 : noEmptyTerminal
          (blocksAux ((blocksAux (buf ++ ch.data)).2 ++ concatChunks rest)).1 := by
        intro b hb hterm
        apply hne b _ hterm
        rw [hfull, hdec]
        exact List.mem_append_right _ hb
      rw [ih _ pu hsp2 hne2]
      have hfin : scanBlocks (blocksAux (buf ++ concatChunks (ch :: rest))).1 pushes
          = scanBlocks (blocksAux ((blocksAux (buf ++ ch.data)).2 ++ concatChunks rest)).1 pu := by
        rw [hfull, hdec]
        show scanBlocks ((blocksAux (buf ++ ch.data)).1
              ++ (blocksAux ((blocksAux (buf ++ ch.data)).2 ++ concatChunks rest)).1) pushes = _
        rw [scanBlocks_append, hS]
      rw [hfin]

theorem handle_sse_of_guard : ∀ (body : String) (sid : Option String) (chunks : List String),
    handle_sse_response body sid chunks
      = (if sseDeferralAccepted body then
           (match consumeChunks chunks [] [] with
            | (some d, pushes) => ((d, sid), pushes)
            | (none, pushes) => ((body, sid), pushes))
         else ((body, sid), [])) := by
  intro body sid chunks
  unfold handle_sse_response sseDeferralAccepted
  cases hl : loads body with
  | none => rfl
  | some info =>
    cases info with
    | null => rfl
    | bool b => rfl
    | num n => rfl
    | str s => rfl
    | arr xs => rfl
    | obj kvs =>
      cases hst : pyGet kvs "status" with
      | none =>
        simp only [hst]
        rfl
      | some v =>
        cases v with
        | null =>
          simp only [hst]
          rfl
        | bool b =>
          simp only [hst]
          rfl
        | num n =>
          simp only [hst]
          rfl
        | arr xs =>
          simp only [hst]
          rfl
        | obj kvs2 =>
          simp only [hst]
          rfl
        | str st =>
          by_cases hacc : st = "accepted"
          · cases hurl : pyGet kvs "sseUrl" with
            | none =>
              simp only [hst, if_pos hacc, hurl]
              rfl
            | some url =>
              by_cases htr : jsonTruthy url = true
              · simp only [hst, if_pos hacc, hurl, htr]
              · have htr2 : jsonTruthy url = false := by
                  cases h2 : jsonTruthy url
                  · rfl
                  · exact absurd h2 htr
                simp only [hst, if_pos hacc, hurl, htr2]
          · simp only [hst, if_neg hacc]
            rfl

/-! ## Discovery helpers -/

theorem probeSeq_find (alive : String → Nat → Bool) : ∀ l : List (String × Nat),
    (probeSeq alive l).1 = l.find? (fun hp => alive hp.1 hp.2) := by
  intro l
  induction l with
  | nil => rfl
  | cons hp t ih =>
    by_cases h : alive hp.1 hp.2 = true
    · rw [probeSeq, if_pos h, List.find?]
      show _ = match (fun hp : String × Nat => alive hp.1 hp.2) hp with
        | true => some hp | false => t.find? (fun hp => alive hp.1 hp.2)
      simp only [h]
    · rw [probeSeq, if_neg h, List.find?]
      show _ = match (fun hp : String × Nat => alive hp.1 hp.2) hp with
        | true => some hp | false => t.find? (fun hp => alive hp.1 hp.2)
      have h2 : alive hp.1 hp.2 = false := by
        cases h3 : alive hp.1 hp.2
        · rfl
        · exact absurd h3 h
      simp only [h2]
      exact ih

theorem probeSeq_all_dead (alive : String → Nat → Bool) : ∀ l : List (String × Nat),
    (∀ hp ∈ l, alive hp.1 hp.2 = false) → probeSeq alive l = (none, l) := by
  intro l
  induction l with
  | nil => intro _; rfl
  | cons hp t ih =>
    intro h
    have hhd : alive hp.1 hp.2 = false := h hp (List.mem_cons_self hp t)
    rw [probeSeq, if_neg (by simp [hhd]), ih (fun q hq => h q (List.mem_cons_of_mem hp hq))]

theorem findq_append (p : String × Nat → Bool) : ∀ l1 l2 : List (String × Nat),
    List.find? p (l1 ++ l2)
      = (match List.find? p l1 with
         | some x => some x
         | none => List.find? p l2) := by
  intro l1
  induction l1 with
  | nil => intro l2; rfl
  | cons a t ih =>
    intro l2
    rw [List.cons_append, List.find?, List.find?]
    cases h : p a
    · simp only []
      exact ih l2
    · rfl

theorem find_ue5_server_eq_find (host : String) (port : Nat) (alive : String → Nat → Bool) :
    find_ue5_server host port alive
      = (discoveryCandidates host port).find? (fun hp => alive hp.1 hp.2) := by
  unfold find_ue5_server find_ue5_server_trace discoveryCandidates
  rw [findq_append]
  simp only [probeSeq_find]
  cases h : List.find? (fun hp => alive hp.1 hp.2) ((hostsToTry host).map (fun h => (h, port)))
  · rfl
  · rfl

theorem find_ue5_trace_all_dead (host : String) (port : Nat) (alive : String → Nat → Bool)
    (h : ∀ hp ∈ discoveryCandidates host port, alive hp.1 hp.2 = false) :
    (find_ue5_server_trace host port alive).2 = discoveryCandidates host port := by
  have h1 : ∀ hp ∈ (hostsToTry host).map (fun h => (h, port)), alive hp.1 hp.2 = false := by
    intro hp hm
    exact h hp (by rw [discoveryCandidates]; exact List.mem_append_left _ hm)
  have h2 : ∀ hp ∈ scanPairs host port, alive hp.1 hp.2 = false := by
    intro hp hm
    exact h hp (by rw [discoveryCandidates]; exact List.mem_append_right _ hm)
  unfold find_ue5_server_trace
  rw [probeSeq_all_dead alive _ h1, probeSeq_all_dead alive _ h2]
  rfl

/-! ## Session-id helpers -/

theorem handle_sse_sid_eq (body : String) (sid : Option String) (chunks : List String) :
    (handle_sse_response body sid chunks).1.2 = sid := by
  rw [handle_sse_of_guard]
  by_cases hg : sseDeferralAccepted body = true
  · rw [if_pos hg]
    rcases hc : consumeChunks chunks [] [] with ⟨od, pushes⟩
    cases od
    · rfl
    · rfl
  · rw [if_neg hg]

/-! ## SSE event-parser helpers: last occurrence wins -/

theorem event_data_disjoint (line : List Char) :
    ['e', 'v', 'e', 'n', 't', ':'].isPrefixOf line = true →
    ['d', 'a', 't', 'a', ':'].isPrefixOf line = false := by
  cases line with
  | nil => intro h; exact absurd h (by decide)
  | cons c t =>
    intro h
    simp only [List.isPrefixOf, Bool.and_eq_true, beq_iff_eq] at h
    obtain ⟨h1, -⟩ := h
    subst h1
    simp [List.isPrefixOf]

theorem getLastD_cons {α : Type} (a d : α) : ∀ l : List α,
    (a :: l).getLast?.getD d = l.getLast?.getD a := by
  intro l
  induction l generalizing a d with
  | nil => rfl
  | cons b t ih =>
    rw [List.getLast?_cons_cons, ih b d, ih b a]

theorem sseFold_foldl : ∀ (lines : List (List Char)) (acc : String × String),
    lines.foldl sseFold acc
      = (((lines.filterMap sseFieldEvent).getLast?).getD acc.1,
         ((lines.filterMap sseFieldData).getLast?).getD acc.2) := by
  intro lines
  induction lines with
  | nil => intro acc; rfl
  | cons line t ih =>
    intro acc
    rw [List.foldl_cons, ih]
    cases hE : ['e', 'v', 'e', 'n', 't', ':'].isPrefixOf line with
    | true =>
      have hD := event_data_disjoint line hE
      have hf : sseFold acc line = (⟨pyStrip (line.drop 6)⟩, acc.2) := by
        rw [sseFold, if_pos hE]
      have hEl : sseFieldEvent line = some ⟨pyStrip (line.drop 6)⟩ := by
        rw [sseFieldEvent, if_pos hE]
      have hDl : sseFieldData line = none := by
        simp [sseFieldData, hD]
      rw [hf, List.filterMap_cons_some hEl, List.filterMap_cons_none hDl,
        getLastD_cons]
    | false =>
      cases hD : ['d', 'a', 't', 'a', ':'].isPrefixOf line with
      | true =>
        have hf : sseFold acc line = (acc.1, ⟨pyStrip (line.drop 5)⟩) := by
          simp [sseFold, hE, hD]
        have hEl : sseFieldEvent line = none := by
          simp [sseFieldEvent, hE]
        have hDl : sseFieldData line = some ⟨pyStrip (line.drop 5)⟩ := by
          simp [sseFieldData, hD]
        rw [hf, List.filterMap_cons_none hEl, List.filterMap_cons_some hDl,
          getLastD_cons]
      | false =>
        have hf : sseFold acc line = acc := by
          simp [sseFold, hE, hD]
        have hEl : sseFieldEvent line = none := by
          simp [sseFieldEvent, hE]
        have hDl : sseFieldData line = none := by
          simp [sseFieldData, hD]
        rw [hf, List.filterMap_cons_none hEl, List.filterMap_cons_none hDl]

/-! ## Dict update helpers: `d["id"] = request_id` makes the id present -/

theorem lookupLast_append_single (k : String) (v : Json) :
    ∀ l : List (String × Json), lookupLast (l ++ [(k, v)]) k = some v := by
  intro l
  induction l with
  | nil => simp [lookupLast]
  | cons p t ih =>
    obtain ⟨k2, v2⟩ := p
    rw [List.cons_append, lookupLast, ih]

theorem lookupLast_map_of_absent (k : String) (v : Json) :
    ∀ l : List (String × Json), (∀ p ∈ l, p.1 ≠ k) →
    lookupLast (l.map (fun p => if p.1 = k then (k, v) else p)) k = none := by
  intro l
  induction l with
  | nil => intro _; rfl
  | cons p t ih =>
    intro habs
    obtain ⟨k2, v2⟩ := p
    have hk : k2 ≠ k := habs (k2, v2) (List.mem_cons_self _ _)
    have hpf : (if (k2, v2).1 = k then (k, v) else (k2, v2)) = (k2, v2) := by
      simp [hk]
    rw [List.map_cons, hpf, lookupLast,
      ih (fun q hq => habs q (List.mem_cons_of_mem _ hq)), if_neg hk]

theorem lookupLast_map_set (k : String) (v : Json) :
    ∀ l : List (String × Json), l.any (fun p => p.1 = k) = true →
    lookupLast (l.map (fun p => if p.1 = k then (k, v) else p)) k = some v := by
  intro l
  induction l with
  | nil => intro h; simp at h
  | cons p t ih =>
    intro h
    obtain ⟨k2, v2⟩ := p
    by_cases hk : k2 = k
    · have hpf : (if (k2, v2).1 = k then (k, v) else (k2, v2)) = (k, v) := by
        simp [hk]
      rw [List.map_cons, hpf, lookupLast]
      by_cases hany : t.any (fun p => p.1 = k) = true
      · rw [ih hany]
      · have habs : ∀ q ∈ t, q.1 ≠ k := by
          intro q hq hqk
          exact hany (List.any_eq_true.mpr ⟨q, hq, by simp [hqk]⟩)
        rw [lookupLast_map_of_absent k v t habs, if_pos rfl]
    · have hpf : (if (k2, v2).1 = k then (k, v) else (k2, v2)) = (k2, v2) := by
        simp [hk]
      have hany : t.any (fun p => p.1 = k) = true := by
        rcases List.any_eq_true.mp h with ⟨q, hq, hqk⟩
        rcases List.mem_cons.mp hq with hq1 | hq2
        · subst hq1
          simp at hqk
          exact absurd hqk hk
        · exact List.any_eq_true.mpr ⟨q, hq2, hqk⟩
      rw [List.map_cons, hpf, lookupLast, ih hany]

theorem lookupLast_setKey (k : String) (v : Json) (l : List (String × Json)) :
    lookupLast (setKey l k v) k = some v := by
  rw [setKey]
  by_cases hany : l.any (fun p => p.1 = k) = true
  · rw [if_pos hany, lookupLast_map_set k v l hany]
  · rw [if_neg hany, lookupLast_append_single]

/-! # The claims -/

/-- Claim C5: on a connection-level failure (`URLError`) or any other
exception the forwarder never raises; it returns a synthesized JSON-RPC error
body — id null, transport-failure code `-32603`, the failure message — with
the session id unchanged, and prints nothing. -/
theorem claim_C5 (rd : String) (sid : Option String) (chunks : List String)
    (reason msg : String) :
    loads (forward_request rd sid (.urlError reason) chunks).1.1
      = some (errorBody .null (-32603) ("Connection failed: " ++ reason))
    ∧ (forward_request rd sid (.urlError reason) chunks).1.2 = sid
    ∧ (forward_request rd sid (.urlError reason) chunks).2 = []
    ∧ loads (forward_request rd sid (.exc msg) chunks).1.1
      = some (errorBody .null (-32603) msg)
    ∧ (forward_request rd sid (.exc msg) chunks).1.2 = sid
    ∧ (forward_request rd sid (.exc msg) chunks).2 = [] := by
  refine ⟨?_, rfl, rfl, ?_, rfl, rfl⟩
  · show loads (dumps true (errorBody .null (-32603) ("Connection failed: " ++ reason))) = _
    exact loads_dumps true _
  · show loads (dumps true (errorBody .null (-32603) msg)) = _
    exact loads_dumps true _

/-- Claim C6: the event parser is a pure function of one block: the type is
the trimmed remainder of the last `event:` line (default `"message"`), the
data the trimmed remainder of the last `data:` line (default empty) — last
occurrence wins — and every other line leaves the result unchanged. -/
theorem claim_C6 (ev : List Char) :
    parse_sse_event ev
      = (((splitOnNl ev).filterMap sseFieldEvent).getLast?.getD "message",
         ((splitOnNl ev).filterMap sseFieldData).getLast?.getD "") :=
  sseFold_foldl (splitOnNl ev) ("message", "")

/-- Claim C7: a non-blank input line that fails to parse as JSON yields
exactly one JSON-RPC parse-error line (code `-32700`, id null), the session
id is kept, and the loop goes on to process the remaining input. -/
theorem claim_C7 (line : String) (sid : Option String) (out : HttpOutcome)
    (chunks : List String) (rest : List (String × HttpOutcome × List String))
    (hnb : (pyStripS line).data ≠ [])
    (hbad : loads (pyStripS line) = none) :
    processLine line sid out chunks
      = ([write_error_line .null (-32700) (parseErrorMessage line)], sid, [])
    ∧ runLoop ((line, out, chunks) :: rest) sid
      = write_error_line .null (-32700) (parseErrorMessage line) :: runLoop rest sid := by
  have h1 : processLine line sid out chunks
      = ([write_error_line .null (-32700) (parseErrorMessage line)], sid, []) := by
    simp only [processLine, if_neg hnb, hbad]
  refine ⟨h1, ?_⟩
  show (processLine line sid out chunks).2.2 ++ (processLine line sid out chunks).1
      ++ runLoop rest (processLine line sid out chunks).2.1 = _
  rw [h1]
  rfl

/-- Witness for claim C7 at the unparsable line of the spec's test list. -/
theorem claim_C7_witness :
    ((pyStripS "\x7bbad json").data ≠ [] ∧ loads (pyStripS "\x7bbad json") = none)
    ∧ processLine "\x7bbad json" none (.exc "x") []
        = ([write_error_line .null (-32700) (parseErrorMessage "\x7bbad json")], none, []) :=
  ⟨⟨by decide, rfl⟩, (claim_C7 "\x7bbad json" none (.exc "x") [] [] (by decide) rfl).1⟩

/-- Claim C9 (amended): canonicalization leaves an already-compact JSON body
unchanged, and on bodies that parse as JSON it is idempotent; the
unconditional twice-equals-once reading fails on non-JSON bodies. -/
theorem claim_C9 (j : Json) :
    write_response (dumps false j) = dumps false j
    ∧ (∀ s : String, loads s = some j →
        write_response (write_response s) = write_response s) := by
  have h1 : write_response (dumps false j) = dumps false j := by
    rw [write_response, loads_dumps]
  refine ⟨h1, ?_⟩
  intro s hs
  have h2 : write_response s = dumps false j := by
    rw [write_response, hs]
  rw [h2, h1]

/-- Counterexample to claim C9's unconditional reading: on a non-JSON body
the first pass scrubs the newline, the second pass then parses the result
and re-serializes it, dropping the trailing space. -/
theorem claim_C9_counterexample :
    write_response "\"a\nb\" " = "\"a b\" "
    ∧ write_response (write_response "\"a\nb\" ") ≠ write_response "\"a\nb\" " := by
  refine ⟨rfl, ?_⟩
  decide

/-- Witness for claim C9's idempotence branch at a concrete JSON body. -/
theorem claim_C9_witness :
    loads "\"x\"" = some (.str "x")
    ∧ write_response (write_response "\"x\"") = write_response "\"x\"" :=
  ⟨rfl, (claim_C9 (.str "x")).2 "\"x\"" rfl⟩

/-- Claim C10: consuming an SSE stream never changes the session token: the
session-id component `handle_sse_response` hands back is exactly the
argument it was given, on the success, guard-fallback and exception paths
alike. -/
theorem claim_C10 (body : String) (sid : Option String) (chunks : List String) :
    (handle_sse_response body sid chunks).1.2 = sid :=
  handle_sse_sid_eq body sid chunks

/-- The session id `forward_request` hands back, by outcome: a 200/202 reply
header overwrites it, everything else keeps it. -/
theorem forward_request_sid (rd : String) (sid : Option String) (out : HttpOutcome)
    (chunks : List String) :
    (forward_request rd sid out chunks).1.2
      = (match out with
         | .ok _ _ (some h) => some h
         | _ => sid) := by
  cases out with
  | ok status body hdr =>
    cases hdr with
    | some h2 =>
      by_cases h202 : status = 202
      · simp only [forward_request]
        rw [if_pos h202]
        exact handle_sse_sid_eq body (some h2) chunks
      · simp only [forward_request]
        rw [if_neg h202]
    | none =>
      by_cases h202 : status = 202
      · simp only [forward_request]
        rw [if_pos h202]
        exact handle_sse_sid_eq body sid chunks
      · simp only [forward_request]
        rw [if_neg h202]
  | httpError c b => rfl
  | urlError r => rfl
  | exc m => rfl

/-- Claim C1 (amended): a non-blank, JSON-parsable input line produces
exactly one response line on stdout — except that a forwarded body that is
empty falls through the `if response:` guard and produces none at all. -/
theorem claim_C1 (line : String) (sid : Option String) (out : HttpOutcome)
    (chunks : List String) (req : Json)
    (hnb : (pyStripS line).data ≠ [])
    (hp : loads (pyStripS line) = some req) :
    (processLine line sid out chunks).1.length
      = (if isObjJson req = true ∧ (forward_request (pyStripS line) sid out chunks).1.1 = ""
         then 0 else 1) := by
  cases req with
  | obj reqKvs =>
    simp only [processLine, if_neg hnb, hp]
    by_cases he : (forward_request (pyStripS line) sid out chunks).1.1 = ""
    · rw [if_pos he, if_pos (⟨rfl, he⟩ : isObjJson (Json.obj reqKvs) = true ∧ _)]
      rfl
    · rw [if_neg he, if_neg (fun h => he h.2)]
      rfl
  | null =>
    simp only [processLine, if_neg hnb, hp]
    rw [if_neg (fun h => Bool.noConfusion h.1)]
    rfl
  | bool b =>
    simp only [processLine, if_neg hnb, hp]
    rw [if_neg (fun h => Bool.noConfusion h.1)]
    rfl
  | num n =>
    simp only [processLine, if_neg hnb, hp]
    rw [if_neg (fun h => Bool.noConfusion h.1)]
    rfl
  | str s =>
    simp only [processLine, if_neg hnb, hp]
    rw [if_neg (fun h => Bool.noConfusion h.1)]
    rfl
  | arr xs =>
    simp only [processLine, if_neg hnb, hp]
    rw [if_neg (fun h => Bool.noConfusion h.1)]
    rfl

/-- Counterexample to claim C1 as stated: a valid request whose forwarded
body comes back empty produces zero outbound lines, not one. -/
theorem claim_C1_counterexample :
    (pyStripS "\x7b\x7d").data ≠ []
    ∧ loads (pyStripS "\x7b\x7d") = some (.obj [])
    ∧ processLine "\x7b\x7d" none (.ok 200 "" none) [] = ([], none, []) :=
  ⟨by decide, rfl, rfl⟩

/-- Witness for claim C1 at a request whose forwarded body is non-empty. -/
theorem claim_C1_witness :
    ((pyStripS "\x7b\x7d").data ≠ [] ∧ loads (pyStripS "\x7b\x7d") = some (.obj []))
    ∧ (processLine "\x7b\x7d" none (.ok 200 "x" none) []).1.length
        = (if isObjJson (.obj []) = true
             ∧ (forward_request (pyStripS "\x7b\x7d") none (.ok 200 "x" none) []).1.1 = ""
           then 0 else 1) :=
  ⟨⟨by decide, rfl⟩, claim_C1 "\x7b\x7d" none (.ok 200 "x" none) [] (.obj []) (by decide) rfl⟩

/-- Claim C2 (amended): discovery returns the first live candidate in probe
order — the configured port on `127.0.0.1` then `"localhost"` when that is
the configured host, then the port scan — and when every probe fails it has
probed exactly the candidate list and returns none.  The scan skips a pair
of the first phase only when its host string equals the configured one, so
the configured `(127.0.0.1, port)` pair is probed twice, not skipped. -/
theorem claim_C2 (host : String) (port : Nat) (alive : String → Nat → Bool) :
    find_ue5_server host port alive
      = (discoveryCandidates host port).find? (fun hp => alive hp.1 hp.2)
    ∧ ((∀ hp ∈ discoveryCandidates host port, alive hp.1 hp.2 = false) →
       (find_ue5_server_trace host port alive).2 = discoveryCandidates host port) :=
  ⟨find_ue5_server_eq_find host port alive, find_ue5_trace_all_dead host port alive⟩

/-- Counterexample to claim C2's skip clause: with host `"localhost"` the
pair `(127.0.0.1, configured port)` is probed in the first phase and again
by the scan. -/
theorem claim_C2_counterexample :
    ("127.0.0.1", 27001) ∈ (hostsToTry "localhost").map (fun h => (h, 27001))
    ∧ ((find_ue5_server_trace "localhost" 27001 (fun _ _ => false)).2.count
        ("127.0.0.1", 27001)) = 2 := by
  refine ⟨by decide, ?_⟩
  decide

/-- Witness for claim C2's all-dead branch at the configured localhost pair. -/
theorem claim_C2_witness :
    (∀ hp ∈ discoveryCandidates "localhost" 27001,
      (fun _ _ => false : String → Nat → Bool) hp.1 hp.2 = false)
    ∧ (find_ue5_server_trace "localhost" 27001 (fun _ _ => false)).2
        = discoveryCandidates "localhost" 27001 :=
  ⟨by decide, (claim_C2 "localhost" 27001 (fun _ _ => false)).2 (by decide)⟩

/-- Claim C4 (amended): a non-empty session token is carried by every
subsequent request's `Mcp-Session-Id` header; the stored token changes only
when a reply header supplies a value — a success reply with a header
overwrites it with that value, a success reply without one keeps it
unchanged, every error path keeps it unchanged — so it never returns to
unset once set.  But a reply may supply the empty-string token, which is
stored yet not attached to later requests. -/
theorem claim_C4 (rd : String) (sid : Option String) (out : HttpOutcome)
    (chunks : List String) :
    (∀ t : String, t ≠ "" → ("Mcp-Session-Id", t) ∈ forwardHeaders (some t))
    ∧ (∀ status body h,
        (forward_request rd sid (.ok status body (some h)) chunks).1.2 = some h)
    ∧ (∀ status body,
        (forward_request rd sid (.ok status body none) chunks).1.2 = sid)
    ∧ (∀ reason, (forward_request rd sid (.urlError reason) chunks).1.2 = sid)
    ∧ (∀ msg, (forward_request rd sid (.exc msg) chunks).1.2 = sid)
    ∧ (∀ code body, (forward_request rd sid (.httpError code body) chunks).1.2 = sid)
    ∧ (∀ s : String, sid = some s →
        ∃ s2, (forward_request rd sid out chunks).1.2 = some s2) := by
  refine ⟨?_, ?_, ?_, fun _ => rfl, fun _ => rfl, fun _ _ => rfl, ?_⟩
  · intro t ht
    show ("Mcp-Session-Id", t)
        ∈ [("Content-Type", "application/json")] ++ (if t ≠ "" then [("Mcp-Session-Id", t)] else [])
    rw [if_pos ht]
    simp
  · intro status body h
    rw [forward_request_sid]
  · intro status body
    rw [forward_request_sid]
  · intro s hs
    rw [forward_request_sid]
    cases out with
    | ok status body hdr =>
      cases hdr with
      | some h2 => exact ⟨h2, rfl⟩
      | none => exact ⟨s, hs⟩
    | httpError c b => exact ⟨s, hs⟩
    | urlError r => exact ⟨s, hs⟩
    | exc m => exact ⟨s, hs⟩

/-- Counterexample to claim C4 as stated: a reply supplying the empty-string
token sets the session id, yet the next request's headers carry no
`Mcp-Session-Id` entry at all. -/
theorem claim_C4_counterexample :
    (forward_request "" none (.ok 200 "b" (some "")) []).1.2 = some ""
    ∧ forwardHeaders ((forward_request "" none (.ok 200 "b" (some "")) []).1.2)
        = [("Content-Type", "application/json")] :=
  ⟨rfl, rfl⟩

/-- Witness for claim C4's header clause at a concrete non-empty token. -/
theorem claim_C4_witness :
    "tok" ≠ "" ∧ ("Mcp-Session-Id", "tok") ∈ forwardHeaders (some "tok") :=
  ⟨by decide, (claim_C4 "" none (.exc "e") []).1 "tok" (by decide)⟩

/-- Claim C8 (amended): when the forwarded body parses as a JSON object that
lacks an id and the request carried one, the emitted line is the compact
serialization of the body with the request id injected, so the original id
is present in what is emitted; when the body does not parse as JSON the
backfill is skipped, but the emitted line is the body with newlines
stripped, not the raw body unmodified. -/
theorem claim_C8 (body : String) (rid : Json) (rkvs : List (String × Json))
    (hb : loads body = some (.obj rkvs)) (hid : pyGet rkvs "id" = none) :
    write_response (backfillId body (some rid))
      = dumps false (.obj (setKey rkvs "id" rid))
    ∧ loads (write_response (backfillId body (some rid)))
      = some (.obj (setKey rkvs "id" rid))
    ∧ lookupLast (setKey rkvs "id" rid) "id" = some rid
    ∧ (∀ body2, loads body2 = none →
        write_response (backfillId body2 (some rid)) = stripNewlines body2) := by
  have hbf : backfillId body (some rid) = dumps true (.obj (setKey rkvs "id" rid)) := by
    simp only [backfillId, hb, hid]
  have h1 : write_response (backfillId body (some rid))
      = dumps false (.obj (setKey rkvs "id" rid)) := by
    rw [hbf, write_response, loads_dumps]
  refine ⟨h1, ?_, lookupLast_setKey "id" rid rkvs, ?_⟩
  · rw [h1, loads_dumps]
  · intro body2 h2
    have hbf2 : backfillId body2 (some rid) = body2 := by
      simp only [backfillId, h2]
    rw [hbf2, write_response, h2]

/-- Counterexample to claim C8's raw-emission clause: a non-JSON body with an
embedded newline is emitted with the newline replaced, not unmodified. -/
theorem claim_C8_counterexample :
    loads "a\nb" = none
    ∧ write_response (backfillId "a\nb" (some (.num 1))) = "a b"
    ∧ "a b" ≠ "a\nb" :=
  ⟨rfl, rfl, by decide⟩

/-- Witness for claim C8 at an empty object body and request id 1. -/
theorem claim_C8_witness :
    (loads "\x7b\x7d" = some (.obj []) ∧ pyGet [] "id" = none)
    ∧ write_response (backfillId "\x7b\x7d" (some (.num 1)))
        = dumps false (.obj (setKey [] "id" (.num 1))) :=
  ⟨⟨rfl, rfl⟩, (claim_C8 "\x7b\x7d" (.num 1) [] rfl rfl).1⟩

/-- Claim C3 (amended): the SSE consumer returns the descriptor unchanged
when the acceptance guard fails; otherwise, provided no `response`/`result`
block of the stream carries empty data, it returns the data of the first
terminal block when one exists and falls back to the original body when none
does — never raising.  (With an empty-data terminal the `if final_response:`
test is falsy: the terminal is dropped and reading continues, so the
first-terminal reading of the claim fails.) -/
theorem claim_C3 (body : String) (sid : Option String) (chunks : List String)
    (hne : noEmptyTerminal (blocksAux (concatChunks chunks)).1) :
    (sseDeferralAccepted body = false →
      handle_sse_response body sid chunks = ((body, sid), []))
    ∧ (sseDeferralAccepted body = true →
      handle_sse_response body sid chunks
        = (match (scanBlocks (blocksAux (concatChunks chunks)).1 []).1 with
           | some d => ((d, sid), (scanBlocks (blocksAux (concatChunks chunks)).1 []).2.1)
           | none => ((body, sid), (scanBlocks (blocksAux (concatChunks chunks)).1 []).2.1))) := by
  constructor
  · intro hg
    rw [handle_sse_of_guard, hg]
    rfl
  · intro hg
    rw [handle_sse_of_guard, if_pos hg]
    have hne2 : noEmptyTerminal (blocksAux ([] ++ concatChunks chunks)).1 := by
      rw [List.nil_append]
      exact hne
    have hcc := consumeChunks_spec chunks [] [] rfl hne2
    rw [List.nil_append] at hcc
    rw [hcc]
    cases hS1 : (scanBlocks (blocksAux (concatChunks chunks)).1 []).1 with
    | some d => rfl
    | none => rfl

/-- Counterexample to claim C3's first-terminal clause: a stream whose one
terminal `response` block carries empty data makes the consumer fall back to
the original body instead of returning that terminal's data. -/
theorem claim_C3_counterexample :
    sseDeferralAccepted "\x7b\"status\":\"accepted\",\"sseUrl\":\"u\"\x7d" = true
    ∧ parse_sse_event ("event: response".data) = ("response", "")
    ∧ handle_sse_response "\x7b\"status\":\"accepted\",\"sseUrl\":\"u\"\x7d" none
        ["event: response\n\n"]
        = (("\x7b\"status\":\"accepted\",\"sseUrl\":\"u\"\x7d", none), []) :=
  ⟨rfl, rfl, rfl⟩

/-- Witness for claim C3 on a progress block followed by a terminal block
with non-empty data. -/
theorem claim_C3_witness :
    noEmptyTerminal (blocksAux (concatChunks
      ["event: progress\ndata: p1\n\n", "event: response\ndata: fin\n\n"])).1
    ∧ handle_sse_response "\x7b\"status\":\"accepted\",\"sseUrl\":\"u\"\x7d" (some "s")
        ["event: progress\ndata: p1\n\n", "event: response\ndata: fin\n\n"]
        = (("fin", some "s"), ["p1"]) := by
  refine ⟨by unfold noEmptyTerminal; decide, ?_⟩
  have h2 := (claim_C3 "\x7b\"status\":\"accepted\",\"sseUrl\":\"u\"\x7d" (some "s")
      ["event: progress\ndata: p1\n\n", "event: response\ndata: fin\n\n"]
      (by unfold noEmptyTerminal; decide)).2 rfl
  exact h2.trans rfl
